import Mathlib

/-!
Verification of the real-time chatbot admin UI and chat-widget clients.

This file gives a shallow embedding, in Lean 4, of the client-side logic of
the repository: the avatar gallery's by-value preview encoding
(`openPreviewWithConfig` in `AvatarList.tsx`), the config-aware widget's
decoder (`decodeConfigFromURL` in the widget script), the A/B test winner
rule (`calculateWinner`), the avatar designer's default-merge and theme-color
logic (`AvatarDesigner.tsx`), the HTML-escaping rendering discipline, and the
real-time `ChatWidget` class (connection lifecycle, outbound queue, typing
signals, file upload).

JavaScript strings are modelled as `List Char` (Unicode scalar values),
byte strings as `List Nat` with every entry `< 256`, JavaScript numbers as
exact decimal fractions (`JNum`), and JavaScript objects as ordered
association lists (`List (String × JVal)`), which is how the object
spread/assignment operations used by the source behave.  Wall-clock
timestamps attached to outbound frames are elided (they carry no logic).
-/

/-! ## Byte and hex primitives -/

/-- Uppercase hex digit for a value `< 16` (as produced by
`encodeURIComponent` and `escape`). -/
def hexDigitUpper (n : Nat) : Char :=
  "0123456789ABCDEF".toList.getD n '0'

/-- Lowercase hex digit for a value `< 16` (as produced by `JSON.stringify`
control-character escapes). -/
def hexDigitLower (n : Nat) : Char :=
  "0123456789abcdef".toList.getD n '0'

/-- Numeric value of a hex digit character, accepting both cases
(as `decodeURIComponent`, `unescape` and `JSON.parse` do). -/
def hexCharVal (c : Char) : Option Nat :=
  if c.toNat ≥ 48 ∧ c.toNat ≤ 57 then some (c.toNat - 48)
  else if c.toNat ≥ 65 ∧ c.toNat ≤ 70 then some (c.toNat - 55)
  else if c.toNat ≥ 97 ∧ c.toNat ≤ 102 then some (c.toNat - 87)
  else none

/-- A percent-escape `%XX` of one byte, uppercase hex. -/
def byteHex (b : Nat) : List Char :=
  ['%', hexDigitUpper (b / 16), hexDigitUpper (b % 16)]

/-! ## UTF-8 -/

/-- UTF-8 encoding of one Unicode scalar value. -/
def utf8EncodeNat (n : Nat) : List Nat :=
  if n < 0x80 then [n]
  else if n < 0x800 then [0xC0 + n / 64, 0x80 + n % 64]
  else if n < 0x10000 then
    [0xE0 + n / 4096, 0x80 + (n / 64) % 64, 0x80 + n % 64]
  else
    [0xF0 + n / 262144, 0x80 + (n / 4096) % 64, 0x80 + (n / 64) % 64,
     0x80 + n % 64]

/-- UTF-8 encoding of one character. -/
def utf8EncodeChar (c : Char) : List Nat :=
  utf8EncodeNat c.toNat

/-- UTF-8 encoding of a JavaScript string. -/
def utf8Encode (l : List Char) : List Nat :=
  l.flatMap utf8EncodeChar

/-- Whether a byte is a UTF-8 continuation byte. -/
def utf8Cont (b : Nat) : Bool :=
  0x80 ≤ b ∧ b < 0xC0

mutual

/-- UTF-8 decoding of a byte list.  Reassembles scalar values from leading
and continuation bytes; malformed leading bytes or missing continuation
bytes fail (as `decodeURIComponent` raises `URIError`).  Overlong forms are
not rejected; they never arise from the encoder side. -/
def utf8Decode : List Nat → Option (List Char)
  | [] => some []
  | b :: rest =>
    if b < 0x80 then
      (Char.ofNat b :: ·) <$> utf8Decode rest
    else if b < 0xC0 then none
    else if b < 0xE0 then utf8DecTwo b rest
    else if b < 0xF0 then utf8DecThree b rest
    else if b < 0xF8 then utf8DecFour b rest
    else none
termination_by l => l.length

/-- Continuation of a two-byte UTF-8 sequence. -/
def utf8DecTwo (b : Nat) : List Nat → Option (List Char)
  | c1 :: rest2 =>
    if utf8Cont c1 then
      (Char.ofNat ((b - 0xC0) * 64 + (c1 - 0x80)) :: ·) <$> utf8Decode rest2
    else none
  | _ => none
termination_by l => l.length

/-- Continuation of a three-byte UTF-8 sequence. -/
def utf8DecThree (b : Nat) : List Nat → Option (List Char)
  | c1 :: c2 :: rest2 =>
    if utf8Cont c1 ∧ utf8Cont c2 then
      (Char.ofNat ((b - 0xE0) * 4096 + (c1 - 0x80) * 64 + (c2 - 0x80)) :: ·) <$>
        utf8Decode rest2
    else none
  | _ => none
termination_by l => l.length

/-- Continuation of a four-byte UTF-8 sequence. -/
def utf8DecFour (b : Nat) : List Nat → Option (List Char)
  | c1 :: c2 :: c3 :: rest2 =>
    if utf8Cont c1 ∧ utf8Cont c2 ∧ utf8Cont c3 then
      (Char.ofNat ((b - 0xF0) * 262144 + (c1 - 0x80) * 4096 +
        (c2 - 0x80) * 64 + (c3 - 0x80)) :: ·) <$> utf8Decode rest2
    else none
  | _ => none
termination_by l => l.length

end

/-! ## Base64 (`btoa` / `atob`) -/

/-- The base64 alphabet. -/
def b64Alphabet : List Char :=
  "ABCDEFGHIJKLMNOPQRSTUVWXYZabcdefghijklmnopqrstuvwxyz0123456789+/".toList

/-- Character for a 6-bit group. -/
def b64Char (v : Nat) : Char :=
  b64Alphabet.getD v 'A'

/-- Index of a character in the base64 alphabet. -/
def b64Val (c : Char) : Option Nat :=
  b64Alphabet.indexOf? c

/-- Base64 encoding of a byte list, three bytes at a time, with `=`
padding, exactly as `btoa` emits. -/
def btoaBytes : List Nat → List Char
  | [] => []
  | [b1] => [b64Char (b1 / 4), b64Char (b1 % 4 * 16), '=', '=']
  | [b1, b2] =>
    [b64Char (b1 / 4), b64Char (b1 % 4 * 16 + b2 / 16), b64Char (b2 % 16 * 4), '=']
  | b1 :: b2 :: b3 :: rest =>
    b64Char (b1 / 4) :: b64Char (b1 % 4 * 16 + b2 / 16) ::
    b64Char (b2 % 16 * 4 + b3 / 64) :: b64Char (b3 % 64) :: btoaBytes rest

/-- The `btoa` function: fails (raises `InvalidCharacterError`) when some
character of its string argument is outside Latin-1, otherwise base64 of
the code-unit bytes. -/
def btoaFn (s : List Char) : Option (List Char) :=
  if s.all (fun c => c.toNat < 256) then some (btoaBytes (s.map Char.toNat))
  else none

/-- The `atob` function: decodes groups of four base64 characters into
three bytes, an `=`-padded final group closing the input. -/
def atobChars : List Char → Option (List Nat)
  | [] => some []
  | c1 :: c2 :: c3 :: c4 :: rest =>
    if c3 = '=' ∧ c4 = '=' ∧ rest = [] then do
      let v1 ← b64Val c1
      let v2 ← b64Val c2
      pure [v1 * 4 + v2 / 16]
    else if c4 = '=' ∧ rest = [] then do
      let v1 ← b64Val c1
      let v2 ← b64Val c2
      let v3 ← b64Val c3
      pure [v1 * 4 + v2 / 16, v2 % 16 * 16 + v3 / 4]
    else do
      let v1 ← b64Val c1
      let v2 ← b64Val c2
      let v3 ← b64Val c3
      let v4 ← b64Val c4
      let tail ← atobChars rest
      pure ((v1 * 4 + v2 / 16) :: (v2 % 16 * 16 + v3 / 4) :: (v3 % 4 * 64 + v4) :: tail)
  | _ => none

/-! ## Percent encoding (`encodeURIComponent` / `decodeURIComponent`,
legacy `escape` / `unescape`, `URLSearchParams` value decoding) -/

/-- Characters `encodeURIComponent` leaves unescaped:
`A-Z a-z 0-9 - _ . ! ~ * ' ( )`. -/
def uriComponentUnreserved (c : Char) : Bool :=
  c.isAlphanum || c = '-' || c = '_' || c = '.' || c = '!' || c = '~' ||
    c = '*' || c = '\'' || c = '(' || c = ')'

/-- `encodeURIComponent`: unreserved characters pass through; every other
character is replaced by the `%XX` escapes of its UTF-8 bytes. -/
def encodeURIComponentFn (s : List Char) : List Char :=
  s.flatMap fun c =>
    if uriComponentUnreserved c then [c]
    else (utf8EncodeChar c).flatMap byteHex

/-- The value of a two-hex-digit escape. -/
def hexPair (c1 c2 : Char) : Option Nat := do
  let h1 ← hexCharVal c1
  let h2 ← hexCharVal c2
  pure (h1 * 16 + h2)

/-- The value of a four-hex-digit escape. -/
def hexQuad (c1 c2 c3 c4 : Char) : Option Nat := do
  let h1 ← hexCharVal c1
  let h2 ← hexCharVal c2
  let h3 ← hexCharVal c3
  let h4 ← hexCharVal c4
  pure (h1 * 4096 + h2 * 256 + h3 * 16 + h4)

mutual

/-- First phase of `decodeURIComponent`: turn the text into a byte stream,
taking `%XX` escapes as single bytes and literal characters as their UTF-8
bytes.  A `%` not followed by two hex digits fails (`URIError`). -/
def percentBytes : List Char → Option (List Nat)
  | [] => some []
  | c :: rest =>
    if c = '%' then percentBytesHex rest
    else (utf8EncodeChar c ++ ·) <$> percentBytes rest
termination_by l => l.length

/-- The two hex digits following a `%`. -/
def percentBytesHex : List Char → Option (List Nat)
  | c1 :: c2 :: rest => do
    let h ← hexPair c1 c2
    let tail ← percentBytes rest
    pure (h :: tail)
  | _ => none
termination_by l => l.length

end

/-- `decodeURIComponent`: percent-unescape to bytes, then UTF-8-decode. -/
def decodeURIComponentFn (s : List Char) : Option (List Char) :=
  percentBytes s >>= utf8Decode

/-- Characters the legacy `escape` function leaves unescaped:
`A-Z a-z 0-9 @ * _ + - . /`. -/
def escapeUnreserved (c : Char) : Bool :=
  c.isAlphanum || c = '@' || c = '*' || c = '_' || c = '+' || c = '-' ||
    c = '.' || c = '/'

/-- Legacy `escape`: code units below 256 become `%XX`, others `%uXXXX`. -/
def escapeFn (s : List Char) : List Char :=
  s.flatMap fun c =>
    if escapeUnreserved c then [c]
    else if c.toNat < 256 then byteHex c.toNat
    else
      '%' :: 'u' :: hexDigitUpper (c.toNat / 4096) ::
        hexDigitUpper (c.toNat / 256 % 16) :: hexDigitUpper (c.toNat / 16 % 16) ::
        [hexDigitUpper (c.toNat % 16)]

/-- Legacy `unescape`: `%uXXXX` and `%XX` sequences become single code
units; malformed sequences are kept literally. -/
def unescapeFn : List Char → List Char
  | '%' :: 'u' :: c1 :: c2 :: c3 :: c4 :: rest =>
    match hexQuad c1 c2 c3 c4 with
    | some n => Char.ofNat n :: unescapeFn rest
    | none => '%' :: unescapeFn ('u' :: c1 :: c2 :: c3 :: c4 :: rest)
  | '%' :: c1 :: c2 :: rest =>
    match hexPair c1 c2 with
    | some n => Char.ofNat n :: unescapeFn rest
    | none => '%' :: unescapeFn (c1 :: c2 :: rest)
  | c :: rest => c :: unescapeFn rest
  | [] => []
termination_by l => l.length
decreasing_by all_goals (simp [List.length]; try omega)

/-- `URLSearchParams` value decoding (`application/x-www-form-urlencoded`):
`+` means space, then percent-decode. -/
def urlParamDecode (s : List Char) : Option (List Char) :=
  decodeURIComponentFn (s.map fun c => if c = '+' then ' ' else c)

/-! ## JSON values, `JSON.stringify`, `JSON.parse` -/

/-- A JavaScript number as `JSON.stringify` prints it for the values this
code base handles: an exact decimal fraction `mantissa / 10 ^ fracDigits`
(speaking speeds such as `1.2`, satisfaction scores such as `4.5`, integer
pitches).  Exponent notation is never produced by the encoder. -/
structure JNum where
  mantissa : Int
  fracDigits : Nat
deriving DecidableEq

/-- A JSON value.  Objects are ordered association lists, matching
JavaScript object key order. -/
inductive JVal where
  | jnull
  | jbool (b : Bool)
  | jnum (n : JNum)
  | jstr (s : String)
  | jarr (xs : List JVal)
  | jobj (fields : List (String × JVal))

/-- Big-endian decimal digit characters of a natural number, empty for 0. -/
def rawDigits (n : Nat) : List Char :=
  (Nat.digits 10 n).reverse.map Nat.digitChar

/-- Big-endian decimal digit characters, with `0` printed as `"0"`. -/
def natDigits (n : Nat) : List Char :=
  if n = 0 then ['0'] else rawDigits n

/-- The fractional digit block: exactly `e` digits, left-padded with `0`. -/
def padDigits (e : Nat) (m : Nat) : List Char :=
  List.replicate (e - (rawDigits m).length) '0' ++ rawDigits m

/-- Decimal rendering of a `JNum`, as `JSON.stringify` prints numbers. -/
def stringifyJNum (n : JNum) : List Char :=
  let sign : List Char := if n.mantissa < 0 then ['-'] else []
  let a := n.mantissa.natAbs
  if n.fracDigits = 0 then sign ++ natDigits a
  else
    sign ++ natDigits (a / 10 ^ n.fracDigits) ++
      '.' :: padDigits n.fracDigits (a % 10 ^ n.fracDigits)

/-- `JSON.stringify` escaping of one string character: `"` and `\` get a
backslash escape, the control characters 8-10 and 12-13 get their short
escapes, other control characters become `\u00xx`, everything else passes
through. -/
def jstrEscapeChar (c : Char) : List Char :=
  if c = '"' then ['\\', '"']
  else if c = '\\' then ['\\', '\\']
  else if c.toNat = 8 then ['\\', 'b']
  else if c.toNat = 9 then ['\\', 't']
  else if c.toNat = 10 then ['\\', 'n']
  else if c.toNat = 12 then ['\\', 'f']
  else if c.toNat = 13 then ['\\', 'r']
  else if c.toNat < 32 then
    ['\\', 'u', '0', '0', hexDigitLower (c.toNat / 16), hexDigitLower (c.toNat % 16)]
  else [c]

/-- `JSON.stringify` rendering of a string, quotes included. -/
def stringifyJStr (s : String) : List Char :=
  '"' :: s.toList.flatMap jstrEscapeChar ++ ['"']

mutual

/-- `JSON.stringify` (no spacing argument, as the gallery calls it). -/
def stringifyJVal : JVal → List Char
  | .jnull => ['n', 'u', 'l', 'l']
  | .jbool true => ['t', 'r', 'u', 'e']
  | .jbool false => ['f', 'a', 'l', 's', 'e']
  | .jnum n => stringifyJNum n
  | .jstr s => stringifyJStr s
  | .jarr xs => '[' :: stringifyElems xs ++ [']']
  | .jobj ms => '{' :: stringifyMembers ms ++ ['}']

/-- Comma-separated array elements. -/
def stringifyElems : List JVal → List Char
  | [] => []
  | [x] => stringifyJVal x
  | x :: xs => stringifyJVal x ++ ',' :: stringifyElems xs

/-- Comma-separated object members. -/
def stringifyMembers : List (String × JVal) → List Char
  | [] => []
  | [(k, v)] => stringifyJStr k ++ ':' :: stringifyJVal v
  | (k, v) :: ms => stringifyJStr k ++ ':' :: stringifyJVal v ++ ',' :: stringifyMembers ms

end

/-- JSON insignificant whitespace. -/
def jsonWs (c : Char) : Bool :=
  c = ' ' || c = '\t' || c = '\n' || c = '\r'

/-- Drop leading JSON whitespace. -/
def skipWs (l : List Char) : List Char :=
  l.dropWhile jsonWs

/-- Parse the body of a JSON string (the opening quote already consumed),
handling all escape forms `JSON.parse` accepts. -/
def parseJStrAux : List Char → Option (List Char × List Char)
  | [] => none
  | '"' :: rest => some ([], rest)
  | '\\' :: 'u' :: c1 :: c2 :: c3 :: c4 :: rest =>
    match hexQuad c1 c2 c3 c4 with
    | some n => (fun p => (Char.ofNat n :: p.1, p.2)) <$> parseJStrAux rest
    | none => none
  | '\\' :: e :: rest =>
    if e = '"' ∨ e = '\\' ∨ e = '/' then
      (fun p => (e :: p.1, p.2)) <$> parseJStrAux rest
    else if e = 'b' then (fun p => (Char.ofNat 8 :: p.1, p.2)) <$> parseJStrAux rest
    else if e = 't' then (fun p => (Char.ofNat 9 :: p.1, p.2)) <$> parseJStrAux rest
    else if e = 'n' then (fun p => (Char.ofNat 10 :: p.1, p.2)) <$> parseJStrAux rest
    else if e = 'f' then (fun p => (Char.ofNat 12 :: p.1, p.2)) <$> parseJStrAux rest
    else if e = 'r' then (fun p => (Char.ofNat 13 :: p.1, p.2)) <$> parseJStrAux rest
    else none
  | c :: rest => (fun p => (c :: p.1, p.2)) <$> parseJStrAux rest
termination_by l => l.length
decreasing_by all_goals (simp [List.length]; try omega)

/-- Value of a big-endian decimal digit string. -/
def digitsVal (l : List Char) : Nat :=
  l.foldl (fun acc c => acc * 10 + (c.toNat - 48)) 0

/-- Parse a nonempty run of decimal digits: value, digit count, rest. -/
def parseDigitRun (l : List Char) : Option (Nat × Nat × List Char) :=
  let ds := l.takeWhile Char.isDigit
  if ds.isEmpty then none
  else some (digitsVal ds, ds.length, l.drop ds.length)

/-- Parse an unsigned JSON number (integer part, optional fraction).
Exponent suffixes, which the gallery encoder never emits, are not
modelled. -/
def parseJNumCore (l : List Char) : Option (JNum × List Char) := do
  let (i, _, r1) ← parseDigitRun l
  match r1 with
  | '.' :: r2 => do
    let (f, cnt, r3) ← parseDigitRun r2
    pure (⟨Int.ofNat (i * 10 ^ cnt + f), cnt⟩, r3)
  | _ => pure (⟨Int.ofNat i, 0⟩, r1)

/-- Parse a JSON number with optional leading minus sign. -/
def parseJNum : List Char → Option (JNum × List Char)
  | '-' :: rest => (fun p => (⟨-p.1.mantissa, p.1.fracDigits⟩, p.2)) <$> parseJNumCore rest
  | l => parseJNumCore l

/-- JavaScript object property assignment `o[k] = v`: an existing key keeps
its position and gets the new value, a new key is appended. -/
def jsObjSet (o : List (String × JVal)) (k : String) (v : JVal) : List (String × JVal) :=
  if o.any (fun p => p.1 = k) then
    o.map fun p => if p.1 = k then (k, v) else p
  else o ++ [(k, v)]

/-- Build a JavaScript object from parsed members by repeated property
assignment (how `JSON.parse` constructs objects; duplicate keys collapse,
the later value winning). -/
def jsObjOfMembers (ms : List (String × JVal)) : List (String × JVal) :=
  ms.foldl (fun o p => jsObjSet o p.1 p.2) []

mutual

/-- Fuel-indexed JSON value parser (the recursive core of `JSON.parse`).
The fuel only bounds nesting of the mutual recursion; `jsonParse` below
supplies more fuel than any input can consume. -/
def parseJVal : Nat → List Char → Option (JVal × List Char)
  | 0, _ => none
  | fuel + 1, s =>
    match skipWs s with
    | 'n' :: 'u' :: 'l' :: 'l' :: rest => some (.jnull, rest)
    | 't' :: 'r' :: 'u' :: 'e' :: rest => some (.jbool true, rest)
    | 'f' :: 'a' :: 'l' :: 's' :: 'e' :: rest => some (.jbool false, rest)
    | '"' :: rest => (fun p => (.jstr (String.mk p.1), p.2)) <$> parseJStrAux rest
    | '[' :: rest =>
      match skipWs rest with
      | ']' :: r2 => some (.jarr [], r2)
      | _ => (fun p => (.jarr p.1, p.2)) <$> parseElems fuel rest
    | '{' :: rest =>
      match skipWs rest with
      | '}' :: r2 => some (.jobj [], r2)
      | _ => (fun p => (.jobj (jsObjOfMembers p.1), p.2)) <$> parseMembers fuel rest
    | t => (fun p => (.jnum p.1, p.2)) <$> parseJNum t

/-- Parse one or more comma-separated array elements up to the closing
bracket. -/
def parseElems : Nat → List Char → Option (List JVal × List Char)
  | 0, _ => none
  | fuel + 1, s => do
    let (v, r1) ← parseJVal fuel s
    match skipWs r1 with
    | ',' :: r2 => (fun p => (v :: p.1, p.2)) <$> parseElems fuel r2
    | ']' :: r2 => pure ([v], r2)
    | _ => none

/-- Parse one or more `"key": value` object members up to the closing
brace. -/
def parseMembers : Nat → List Char → Option (List (String × JVal) × List Char)
  | 0, _ => none
  | fuel + 1, s =>
    match skipWs s with
    | '"' :: r1 => do
      let (k, r2) ← parseJStrAux r1
      match skipWs r2 with
      | ':' :: r3 => do
        let (v, r4) ← parseJVal fuel r3
        match skipWs r4 with
        | ',' :: r5 => (fun p => ((String.mk k, v) :: p.1, p.2)) <$> parseMembers fuel r5
        | '}' :: r5 => pure ([(String.mk k, v)], r5)
        | _ => none
      | _ => none
    | _ => none

end

/-- `JSON.parse`: parse one value and insist nothing but whitespace
follows. -/
def jsonParse (s : List Char) : Option JVal :=
  match parseJVal (s.length + 1) s with
  | some (v, rest) => if skipWs rest = [] then some v else none
  | none => none

/-! ## JavaScript object access and truthiness -/

/-- Property read `o.k` on an object. -/
def jGet (o : List (String × JVal)) (k : String) : Option JVal :=
  (o.find? fun p => p.1 = k).map (·.2)

/-- JavaScript truthiness of a JSON value. -/
def jTruthy : JVal → Bool
  | .jnull => false
  | .jbool b => b
  | .jnum n => !(n.mantissa = 0)
  | .jstr s => !(s = "")
  | .jarr _ => true
  | .jobj _ => true

/-- The `a || b` fallback pattern on a possibly absent property: an absent
or falsy value yields the default. -/
def jsOr (v : Option JVal) (d : JVal) : JVal :=
  match v with
  | some x => if jTruthy x then x else d
  | none => d

/-! ## Gallery preview encoding (`openPreviewWithConfig`, AvatarList.tsx)
and widget decoding (`decodeConfigFromURL`, chat-widget script) -/

/-- The property bag behind `avatar.voice_characteristics as any || {}`:
field reads only succeed when the property holds an object (reads on a
non-object or absent value yield `undefined` either way). -/
def vcFieldsOf (avatar : List (String × JVal)) : List (String × JVal) :=
  match jGet avatar "voice_characteristics" with
  | some (.jobj o) => o
  | _ => []

/-- `vc.gender || (avatar as any).gender || 'female'` from
`openPreviewWithConfig`. -/
def previewGender (avatar : List (String × JVal)) : JVal :=
  jsOr (jGet (vcFieldsOf avatar) "gender")
    (jsOr (jGet avatar "gender") (.jstr "female"))

/-- The `completeAvatar` object built by `openPreviewWithConfig`: the
avatar with `voice_characteristics` replaced by a normalized object whose
five fields all exist. -/
def completeAvatarOf (avatar : List (String × JVal)) : List (String × JVal) :=
  jsObjSet avatar "voice_characteristics" (.jobj
    [("tone", jsOr (jGet (vcFieldsOf avatar) "tone") (.jstr "warm_friendly")),
     ("accent", jsOr (jGet (vcFieldsOf avatar) "accent") (.jstr "neutral_american")),
     ("speed", jsOr (jGet (vcFieldsOf avatar) "speed") (.jnum ⟨1, 0⟩)),
     ("gender", previewGender avatar),
     ("pitch", jsOr (jGet (vcFieldsOf avatar) "pitch") (.jnum ⟨0, 0⟩))])

/-- `openPreviewWithConfig`, reduced to the value it places after
`?config=`: `encodeURIComponent(btoa(unescape(encodeURIComponent(
JSON.stringify(completeAvatar)))))`.  `none` models the `catch` branch
(fallback to the by-reference preview), taken when `btoa` throws. -/
def openPreviewConfigValue (avatar : List (String × JVal)) : Option (List Char) := do
  let json := stringifyJVal (.jobj (completeAvatarOf avatar))
  let b64 ← btoaFn (unescapeFn (encodeURIComponentFn json))
  pure (encodeURIComponentFn b64)

/-- `decodeConfigFromURL` applied to the raw text standing after `config=`
in the URL: `URLSearchParams.get` first applies form-urlencoded decoding,
then the script runs `atob(decodeURIComponent(param))`,
`decodeURIComponent(escape(decoded))` and `JSON.parse`.  Any failure is
caught and yields `null` (`none`). -/
def decodeConfigFromURL (raw : List Char) : Option JVal := do
  let configParam ← urlParamDecode raw
  let dec1 ← decodeURIComponentFn configParam
  let bytes ← atobChars dec1
  let json ← decodeURIComponentFn (escapeFn (bytes.map Char.ofNat))
  jsonParse json

mutual

/-- Well-formedness of a JSON value arising from a JavaScript runtime
object: object key lists have no duplicate keys (JavaScript objects cannot
hold two properties of the same name). -/
def jvalWF : JVal → Bool
  | .jarr xs => jvalListWF xs
  | .jobj ms => (ms.map Prod.fst).Nodup && jvalMembersWF ms
  | _ => true

/-- Well-formedness of every element of an array. -/
def jvalListWF : List JVal → Bool
  | [] => true
  | x :: xs => jvalWF x && jvalListWF xs

/-- Well-formedness of every member value of an object. -/
def jvalMembersWF : List (String × JVal) → Bool
  | [] => true
  | (_, v) :: ms => jvalWF v && jvalMembersWF ms

end

/-- Whether an optional gender property is a legal Avatar gender per the
data model (`female`, `male` or `neutral`) whenever it is present. -/
def genderFieldOk : Option JVal → Bool
  | none => true
  | some (.jstr s) => s = "female" || s = "male" || s = "neutral"
  | some _ => false

/-- An Avatar object as the data model describes it: a well-formed runtime
object whose nested and top-level `gender` properties, when present, hold
one of the three gender enum strings. -/
def avatarWF (avatar : List (String × JVal)) : Bool :=
  jvalWF (.jobj avatar) &&
    genderFieldOk (jGet (vcFieldsOf avatar) "gender") &&
    genderFieldOk (jGet avatar "gender")

/-! ## A/B test winner rule (`calculateWinner`) -/

/-- Metrics of an A/B test (the mock-data manager variant holds them
directly; counts and satisfaction averages).  Values are exact rationals;
the comparisons the code performs are order comparisons, faithfully
mirrored over `ℚ`. -/
structure ABMetrics where
  conversations_a : ℚ
  conversations_b : ℚ
  satisfaction_a : ℚ
  satisfaction_b : ℚ
deriving DecidableEq

/-- Metrics as the API-integrated manager variant reads them: every field
may be absent (`m.conversations_a || 0`). -/
structure ABMetricsOpt where
  conversations_a : Option ℚ
  conversations_b : Option ℚ
  satisfaction_a : Option ℚ
  satisfaction_b : Option ℚ
deriving DecidableEq

/-- Which side `calculateWinner` reports (the component renders these as
the avatar name or id, `"Tie"`, or `"No data yet"`). -/
inductive ABWinner where
  | noData
  | sideA
  | sideB
  | tie
deriving DecidableEq

/-- `score_a = satisfaction_a * conversations_a` from `calculateWinner`. -/
def scoreA (m : ABMetrics) : ℚ :=
  m.satisfaction_a * m.conversations_a

/-- `score_b = satisfaction_b * conversations_b` from `calculateWinner`. -/
def scoreB (m : ABMetrics) : ℚ :=
  m.satisfaction_b * m.conversations_b

/-- `calculateWinner` of the mock-data A/B test manager variant. -/
def calculateWinner (m : ABMetrics) : ABWinner :=
  if m.conversations_a = 0 ∧ m.conversations_b = 0 then .noData
  else if scoreA m > scoreB m then .sideA
  else if scoreB m > scoreA m then .sideB
  else .tie

/-- `calculateWinner` of the API-integrated A/B test manager variant:
absent metrics object or absent fields default to 0, then the same rule. -/
def calculateWinnerApi (metrics : Option ABMetricsOpt) : ABWinner :=
  let m := metrics.getD ⟨none, none, none, none⟩
  let convA := m.conversations_a.getD 0
  let convB := m.conversations_b.getD 0
  if convA = 0 ∧ convB = 0 then .noData
  else
    let satA := m.satisfaction_a.getD 0
    let satB := m.satisfaction_b.getD 0
    if satA * convA > satB * convB then .sideA
    else if satB * convB > satA * convA then .sideB
    else .tie

/-- The sample experiment shipped in the mock-data manager (also the
figures named by the specification): 156 and 162 conversations,
satisfaction 4.2 and 4.5. -/
def sampleMetrics : ABMetrics :=
  ⟨156, 162, 42 / 10, 45 / 10⟩

/-! ## Avatar designer data model (`AvatarDesigner.tsx`) -/

/-- `visual_appearance.face`. -/
structure FaceConfig where
  shape : String
  skin_tone : String
deriving DecidableEq

/-- `visual_appearance.clothing`. -/
structure ClothingConfig where
  type : String
  primary_color : String
  secondary_color : String
deriving DecidableEq

/-- `visual_appearance.style`. -/
structure StyleConfig where
  theme : String
  border_radius : String
  background_color : String
deriving DecidableEq

/-- `visual_appearance`. -/
structure VisualAppearance where
  face : FaceConfig
  clothing : ClothingConfig
  style : StyleConfig
deriving DecidableEq

/-- `voice_characteristics`.  The numeric fields are exact rationals. -/
structure VoiceCharacteristics where
  tone : String
  accent : String
  speed : ℚ
  gender : String
  pitch : ℚ
deriving DecidableEq

/-- `personality_traits`. -/
structure PersonalityTraits where
  formality : String
  empathy : ℚ
  directness : ℚ
  humor : ℚ
  enthusiasm : ℚ
  patience : ℚ
deriving DecidableEq

/-- One `animation_behaviors` row. -/
structure AnimationBehavior where
  trigger : String
  animation : String
deriving DecidableEq

/-- `branding_elements`. -/
structure BrandingElements where
  logo_url : String
  background_color : String
  theme_colors : List String
  font_family : String
  company_name : String
deriving DecidableEq

/-- The designer's `AvatarData` record. -/
structure AvatarData where
  id : Option String
  name : String
  visual_appearance : VisualAppearance
  voice_characteristics : VoiceCharacteristics
  personality_traits : PersonalityTraits
  animation_behaviors : List AnimationBehavior
  branding_elements : BrandingElements
deriving DecidableEq

/-- `defaultAvatarTemplate` from `AvatarDesigner.tsx`. -/
def defaultAvatarTemplate : AvatarData :=
  { id := none
    name := ""
    visual_appearance :=
      { face := ⟨"round", "#8B7355"⟩
        clothing := ⟨"business_casual", "#2C5F8D", "#5CA3D5"⟩
        style := ⟨"professional", "12px", "#FFFFFF"⟩ }
    voice_characteristics := ⟨"warm_friendly", "neutral_american", 1, "female", 0⟩
    personality_traits := ⟨"professional", 8/10, 6/10, 3/10, 7/10, 9/10⟩
    animation_behaviors :=
      [⟨"greeting", "wave_hand"⟩, ⟨"thinking", "head_tilt"⟩,
       ⟨"empathy", "nod_slowly"⟩, ⟨"excited", "bounce"⟩,
       ⟨"neutral", "idle_blink"⟩]
    branding_elements :=
      ⟨"", "#FFFFFF", ["#2C5F8D", "#5CA3D5", "#A8D0E6"], "Inter, sans-serif", ""⟩ }

/-- A possibly incomplete `face` section, as a backend payload may ship
it. -/
structure OptFace where
  shape : Option String
  skin_tone : Option String

/-- A possibly incomplete `clothing` section. -/
structure OptClothing where
  type : Option String
  primary_color : Option String
  secondary_color : Option String

/-- A possibly incomplete `style` section. -/
structure OptStyle where
  theme : Option String
  border_radius : Option String
  background_color : Option String

/-- A possibly incomplete `visual_appearance` section. -/
structure OptVisual where
  face : Option OptFace
  clothing : Option OptClothing
  style : Option OptStyle

/-- A possibly incomplete `voice_characteristics` section. -/
structure OptVoice where
  tone : Option String
  accent : Option String
  speed : Option ℚ
  gender : Option String
  pitch : Option ℚ

/-- A possibly incomplete `personality_traits` section. -/
structure OptTraits where
  formality : Option String
  empathy : Option ℚ
  directness : Option ℚ
  humor : Option ℚ
  enthusiasm : Option ℚ
  patience : Option ℚ

/-- A possibly incomplete `branding_elements` section. -/
structure OptBranding where
  logo_url : Option String
  background_color : Option String
  theme_colors : Option (List String)
  font_family : Option String
  company_name : Option String

/-- A possibly incomplete avatar payload (`Partial<AvatarData> | any`). -/
structure OptAvatarData where
  id : Option String
  name : Option String
  visual_appearance : Option OptVisual
  voice_characteristics : Option OptVoice
  personality_traits : Option OptTraits
  animation_behaviors : Option (List AnimationBehavior)
  branding_elements : Option OptBranding

/-- Spread-merge `{...dflt, ...(data || {})}` for the face section. -/
def mergeFace (dflt : FaceConfig) (o : Option OptFace) : FaceConfig :=
  match o with
  | none => dflt
  | some f => ⟨f.shape.getD dflt.shape, f.skin_tone.getD dflt.skin_tone⟩

/-- Spread-merge for the clothing section. -/
def mergeClothing (dflt : ClothingConfig) (o : Option OptClothing) : ClothingConfig :=
  match o with
  | none => dflt
  | some f =>
    ⟨f.type.getD dflt.type, f.primary_color.getD dflt.primary_color,
     f.secondary_color.getD dflt.secondary_color⟩

/-- Spread-merge for the style section. -/
def mergeStyle (dflt : StyleConfig) (o : Option OptStyle) : StyleConfig :=
  match o with
  | none => dflt
  | some f =>
    ⟨f.theme.getD dflt.theme, f.border_radius.getD dflt.border_radius,
     f.background_color.getD dflt.background_color⟩

/-- Spread-merge for the voice section. -/
def mergeVoice (dflt : VoiceCharacteristics) (o : Option OptVoice) : VoiceCharacteristics :=
  match o with
  | none => dflt
  | some f =>
    ⟨f.tone.getD dflt.tone, f.accent.getD dflt.accent, f.speed.getD dflt.speed,
     f.gender.getD dflt.gender, f.pitch.getD dflt.pitch⟩

/-- Spread-merge for the personality section. -/
def mergeTraits (dflt : PersonalityTraits) (o : Option OptTraits) : PersonalityTraits :=
  match o with
  | none => dflt
  | some f =>
    ⟨f.formality.getD dflt.formality, f.empathy.getD dflt.empathy,
     f.directness.getD dflt.directness, f.humor.getD dflt.humor,
     f.enthusiasm.getD dflt.enthusiasm, f.patience.getD dflt.patience⟩

/-- Spread-merge for the branding section. -/
def mergeBranding (dflt : BrandingElements) (o : Option OptBranding) : BrandingElements :=
  match o with
  | none => dflt
  | some f =>
    ⟨f.logo_url.getD dflt.logo_url, f.background_color.getD dflt.background_color,
     f.theme_colors.getD dflt.theme_colors, f.font_family.getD dflt.font_family,
     f.company_name.getD dflt.company_name⟩

/-- `withDefaults` from `AvatarDesigner.tsx`: merge a possibly incomplete
payload over `defaultAvatarTemplate`, section by section;
`animation_behaviors` is taken from the payload only when present and
non-empty. -/
def withDefaults (data : Option OptAvatarData) : AvatarData :=
  match data with
  | none => defaultAvatarTemplate
  | some d =>
    { id := d.id
      name := d.name.getD defaultAvatarTemplate.name
      visual_appearance :=
        match d.visual_appearance with
        | none => defaultAvatarTemplate.visual_appearance
        | some va =>
          { face := mergeFace defaultAvatarTemplate.visual_appearance.face va.face
            clothing :=
              mergeClothing defaultAvatarTemplate.visual_appearance.clothing va.clothing
            style := mergeStyle defaultAvatarTemplate.visual_appearance.style va.style }
      voice_characteristics :=
        mergeVoice defaultAvatarTemplate.voice_characteristics d.voice_characteristics
      personality_traits :=
        mergeTraits defaultAvatarTemplate.personality_traits d.personality_traits
      animation_behaviors :=
        match d.animation_behaviors with
        | some l => if l.isEmpty then defaultAvatarTemplate.animation_behaviors else l
        | none => defaultAvatarTemplate.animation_behaviors
      branding_elements :=
        mergeBranding defaultAvatarTemplate.branding_elements d.branding_elements }

/-- View a complete avatar as a payload with every property present. -/
def toOptAvatarData (a : AvatarData) : OptAvatarData :=
  { id := a.id
    name := some a.name
    visual_appearance := some
      { face := some ⟨some a.visual_appearance.face.shape, some a.visual_appearance.face.skin_tone⟩
        clothing := some
          ⟨some a.visual_appearance.clothing.type,
           some a.visual_appearance.clothing.primary_color,
           some a.visual_appearance.clothing.secondary_color⟩
        style := some
          ⟨some a.visual_appearance.style.theme,
           some a.visual_appearance.style.border_radius,
           some a.visual_appearance.style.background_color⟩ }
    voice_characteristics := some
      ⟨some a.voice_characteristics.tone, some a.voice_characteristics.accent,
       some a.voice_characteristics.speed, some a.voice_characteristics.gender,
       some a.voice_characteristics.pitch⟩
    personality_traits := some
      ⟨some a.personality_traits.formality, some a.personality_traits.empathy,
       some a.personality_traits.directness, some a.personality_traits.humor,
       some a.personality_traits.enthusiasm, some a.personality_traits.patience⟩
    animation_behaviors := some a.animation_behaviors
    branding_elements := some
      ⟨some a.branding_elements.logo_url, some a.branding_elements.background_color,
       some a.branding_elements.theme_colors, some a.branding_elements.font_family,
       some a.branding_elements.company_name⟩ }

/-- The designer state that `addThemeColor` reads and writes: the avatar
being edited, the staged new color, and the inline error banner. -/
structure DesignerState where
  avatarData : AvatarData
  newThemeColor : String
  errorMsg : Option String
deriving DecidableEq

/-- `addThemeColor` from `AvatarDesigner.tsx`: refuse (with an inline
error) at five theme colors, otherwise append the staged color and reset
the color picker to `#667eea`. -/
def addThemeColor (s : DesignerState) : DesignerState :=
  if s.avatarData.branding_elements.theme_colors.length ≥ 5 then
    { s with errorMsg := some "Maximum 5 theme colors allowed" }
  else
    { s with
      avatarData :=
        { s.avatarData with
          branding_elements :=
            { s.avatarData.branding_elements with
              theme_colors :=
                s.avatarData.branding_elements.theme_colors ++ [s.newThemeColor] } }
      newThemeColor := "#667eea" }

/-! ## Message rendering (`escapeHtml` / `showMessage` in the real-time
widget, `createMessageBubble` in the simple widget) -/

/-- Serialization of one text-node character back to HTML source, which is
what `div.textContent = text; div.innerHTML` computes in
`ChatWidget.escapeHtml`. -/
def escapeHtmlChar (c : Char) : List Char :=
  if c = '&' then "&amp;".toList
  else if c = '<' then "&lt;".toList
  else if c = '>' then "&gt;".toList
  else [c]

/-- `ChatWidget.escapeHtml`. -/
def escapeHtml (s : String) : String :=
  String.mk (s.toList.flatMap escapeHtmlChar)

/-- How an HTML parser reads escaped text content back: the inverse
direction of `escapeHtml`, decoding the three entities it emits. -/
def unescapeHtmlAux : List Char → List Char
  | '&' :: 'a' :: 'm' :: 'p' :: ';' :: rest => '&' :: unescapeHtmlAux rest
  | '&' :: 'l' :: 't' :: ';' :: rest => '<' :: unescapeHtmlAux rest
  | '&' :: 'g' :: 't' :: ';' :: rest => '>' :: unescapeHtmlAux rest
  | c :: rest => c :: unescapeHtmlAux rest
  | [] => []
termination_by l => l.length
decreasing_by all_goals (simp [List.length]; try omega)

/-- String-level wrapper for `unescapeHtmlAux`. -/
def unescapeHtml (s : String) : String :=
  String.mk (unescapeHtmlAux s.toList)

/-- A DOM node, as far as the simple widget's `el` helper builds them. -/
inductive DomNode where
  | elem (tag : String) (className : String) (children : List DomNode)
  | textNode (text : String)

mutual

/-- The visible text of a node (`textContent`). -/
def domText : DomNode → String
  | .textNode t => t
  | .elem _ _ children => domTextList children

/-- The visible text of a node list. -/
def domTextList : List DomNode → String
  | [] => ""
  | n :: ns => domText n ++ domTextList ns

end

/-- `createMessageBubble` from the simple widget: a `div` whose only child
is a text node holding the message (strings passed to `el` become text
nodes via `document.createTextNode`). -/
def createMessageBubble (text : String) (who : String) : DomNode :=
  .elem "div" (if who = "user" then "msg user" else "msg bot") [.textNode text]

/-! ## Real-time chat widget (`ChatWidget` class) -/

/-- ASCII whitespace as `String.prototype.trim` strips it (the exotic
Unicode space code points JavaScript also strips are irrelevant here). -/
def jsWhitespace (c : Char) : Bool :=
  c = ' ' || c = '\t' || c = '\n' || c = '\r' || c.toNat = 11 || c.toNat = 12

/-- JavaScript `value.trim()`. -/
def jsTrim (s : String) : String :=
  String.mk (((s.toList.dropWhile jsWhitespace).reverse.dropWhile jsWhitespace).reverse)

/-- An outbound WebSocket frame, minus the wall-clock `timestamp` field. -/
inductive WireMsg where
  | text (content : String)
  | typingStart
  | typingStop
  | voice (content : String)
  | mediaUpload (content : String) (filename : String) (mimetype : String)
deriving DecidableEq

/-- Whether a frame is one of the two typing signals. -/
def isTypingSig : WireMsg → Bool
  | .typingStart => true
  | .typingStop => true
  | _ => false

/-- The widget state the verified behaviors touch.  `wire` is the sequence
of frames passed to `ws.send` so far; `emitted` is a ghost trace recording,
in order, every frame the UI handlers submitted through `sendToWebSocket`
(whether it was sent immediately or queued) — the queue flush does not
re-record frames there. -/
structure WidgetState where
  isConnected : Bool
  wsOpen : Bool
  isTyping : Bool
  typingTimeoutSet : Bool
  inputValue : String
  messageQueue : List WireMsg
  wire : List WireMsg
  emitted : List WireMsg
  reconnectAttempts : Nat
  scheduledReconnect : Option Nat
  inputDisabled : Bool
  systemMessages : List String
deriving DecidableEq

/-- `this.maxReconnectAttempts`. -/
def maxReconnectAttempts : Nat := 5

/-- `this.reconnectDelay` (milliseconds). -/
def reconnectDelay : Nat := 1000

/-- Constructor state of `ChatWidget` (before `connect()` resolves). -/
def initialWidgetState : WidgetState :=
  { isConnected := false
    wsOpen := false
    isTyping := false
    typingTimeoutSet := false
    inputValue := ""
    messageQueue := []
    wire := []
    emitted := []
    reconnectAttempts := 0
    scheduledReconnect := none
    inputDisabled := false
    systemMessages := [] }

/-- `ChatWidget.sendToWebSocket`: send immediately when
`this.isConnected && this.ws.readyState === WebSocket.OPEN`, otherwise push
onto `this.messageQueue`. -/
def sendToWebSocket (s : WidgetState) (m : WireMsg) : WidgetState :=
  if s.isConnected && s.wsOpen then { s with wire := s.wire ++ [m] }
  else { s with messageQueue := s.messageQueue ++ [m] }

/-- `sendToWebSocket` as invoked from a UI handler, with the ghost
`emitted` trace extended. -/
def emitMsg (s : WidgetState) (m : WireMsg) : WidgetState :=
  let s1 := sendToWebSocket s m
  { s1 with emitted := s1.emitted ++ [m] }

/-- One iteration step of the `ChatWidget.processMessageQueue` loop
(`while (queue.length > 0 && isConnected) { send(queue.shift()) }`),
driven by fuel.  The flush is only entered from the `onopen` handler,
where the socket is open and each iteration removes one queued message, so
a fuel of the initial queue length runs the loop to completion. -/
def processQueueAux : Nat → WidgetState → WidgetState
  | 0, s => s
  | fuel + 1, s =>
    match s.messageQueue, s.isConnected with
    | m :: rest, true =>
      processQueueAux fuel (sendToWebSocket { s with messageQueue := rest } m)
    | _, _ => s

/-- `ChatWidget.processMessageQueue`. -/
def processMessageQueue (s : WidgetState) : WidgetState :=
  processQueueAux s.messageQueue.length s

/-- The `ws.onopen` handler: mark connected, reset the reconnect counter,
clear system status messages, flush the queue. -/
def handleOpen (s : WidgetState) : WidgetState :=
  processMessageQueue
    { s with isConnected := true, wsOpen := true, reconnectAttempts := 0,
             systemMessages := [] }

/-- `ChatWidget.handleDisconnection`: below five attempts, bump the
counter and schedule a reconnect after `reconnectDelay * 2 ^ (attempts-1)`
milliseconds; at five, give up and disable all input controls.
`scheduledReconnect` holds the delay this close event scheduled, if any.
The attempt-counter text inside the status message is elided. -/
def handleDisconnection (s : WidgetState) : WidgetState :=
  if s.reconnectAttempts < maxReconnectAttempts then
    let attempts := s.reconnectAttempts + 1
    { s with
      reconnectAttempts := attempts
      scheduledReconnect := some (reconnectDelay * 2 ^ (attempts - 1))
      systemMessages := s.systemMessages ++ ["Connection lost. Reconnecting..."] }
  else
    { s with
      scheduledReconnect := none
      inputDisabled := true
      systemMessages := s.systemMessages ++ ["Unable to connect. Please refresh the page."] }

/-- The `ws.onclose` handler: mark disconnected, then
`handleDisconnection`. -/
def handleClose (s : WidgetState) : WidgetState :=
  handleDisconnection { s with isConnected := false, wsOpen := false }

/-- `ChatWidget.stopTyping`: send `typing_stop` only while `isTyping`,
then clear the idle timer. -/
def stopTyping (s : WidgetState) : WidgetState :=
  let s1 := if s.isTyping then emitMsg { s with isTyping := false } .typingStop else s
  { s1 with typingTimeoutSet := false }

/-- `ChatWidget.handleTyping`, handling an input event that left `v` in
the message field: send `typing_start` on an empty-to-nonempty transition,
`typing_stop` (via `stopTyping`) on a nonempty-to-empty transition, and in
every case restart the 1-second idle timer. -/
def handleTyping (s : WidgetState) (v : String) : WidgetState :=
  let s0 := { s with inputValue := v }
  let hasContent := jsTrim v ≠ ""
  let s1 :=
    if hasContent ∧ ¬s0.isTyping then emitMsg { s0 with isTyping := true } .typingStart
    else if ¬hasContent ∧ s0.isTyping then stopTyping s0
    else s0
  { s1 with typingTimeoutSet := true }

/-- The 1-second typing idle timer firing (a timer only fires while it is
pending). -/
def typingTimerFire (s : WidgetState) : WidgetState :=
  if s.typingTimeoutSet then stopTyping s else s

/-- `ChatWidget.sendMessage` (send button / Enter): return without doing
anything when the trimmed input is empty or `isConnected` is false;
otherwise send the text frame, clear the field and stop typing. -/
def sendMessageClick (s : WidgetState) : WidgetState :=
  let content := jsTrim s.inputValue
  if content = "" ∨ ¬s.isConnected then s
  else stopTyping { emitMsg s (.text content) with inputValue := "" }

/-- A file picked in the hidden file input: name, MIME type and content
bytes. -/
structure FileData where
  name : String
  mimetype : String
  bytes : List Nat
deriving DecidableEq

/-- `file.size` in bytes. -/
def FileData.size (f : FileData) : Nat :=
  f.bytes.length

/-- `FileReader.readAsDataURL`: a base64 data URI of the content bytes. -/
def readAsDataURL (f : FileData) : String :=
  "data:" ++ f.mimetype ++ ";base64," ++ String.mk (btoaBytes f.bytes)

/-- `ChatWidget.handleFileUpload`: reject a file over `10 * 1024 * 1024`
bytes with an inline error before any read or send; otherwise read it and
submit a `media_upload` frame carrying the data URI, filename and MIME
type.  (The transient upload-progress element is elided.) -/
def handleFileUpload (s : WidgetState) (f : FileData) : WidgetState :=
  if f.size > 10 * 1024 * 1024 then
    { s with systemMessages := s.systemMessages ++ ["File size must be less than 10MB"] }
  else
    emitMsg s (.mediaUpload (readAsDataURL f) f.name f.mimetype)

/-- `ChatWidget.handleVoiceRecording`: the assembled recording is read as
a data URI and submitted as a `voice` frame. -/
def handleVoiceRecording (s : WidgetState) (audio : List Nat) : WidgetState :=
  emitMsg s (.voice (readAsDataURL ⟨"", "audio/wav", audio⟩))

/-- The widget events the verified properties quantify over. -/
inductive WidgetEvent where
  | input (v : String)
  | timer
  | send
  | sockOpen
  | sockClose
  | fileSelected (f : FileData)
  | voiceDone (audio : List Nat)

/-- Dispatch one event to its `ChatWidget` handler. -/
def widgetStep (s : WidgetState) : WidgetEvent → WidgetState
  | .input v => handleTyping s v
  | .timer => typingTimerFire s
  | .send => sendMessageClick s
  | .sockOpen => handleOpen s
  | .sockClose => handleClose s
  | .fileSelected f => handleFileUpload s f
  | .voiceDone audio => handleVoiceRecording s audio

/-- Run the widget over a sequence of events. -/
def runWidget (s : WidgetState) (evs : List WidgetEvent) : WidgetState :=
  evs.foldl widgetStep s

/-- Scan one frame of the emitted trace for the typing-alternation
invariant: tracks the `isTyping` flag and fails (`none`) on a
`typing_start` while typing or a `typing_stop` while not typing. -/
def typingScan (o : Option Bool) (m : WireMsg) : Option Bool :=
  match o, m with
  | none, _ => none
  | some b, .typingStart => if b then none else some true
  | some b, .typingStop => if b then some false else none
  | some b, _ => some b

/-- Final typing state of a frame trace, or `none` when the trace has two
consecutive `typing_start`s, two consecutive `typing_stop`s, or an initial
`typing_stop`. -/
def typingAltState (l : List WireMsg) : Option Bool :=
  l.foldl typingScan (some false)

/-- Whether the text following a rendered JSON value is a legal
continuation: end of input or a separator, which in particular never
starts with a digit or a dot, so greedy number parsing stops correctly. -/
def jsonDelim (l : List Char) : Bool :=
  match l with
  | [] => true
  | c :: _ => c = ',' || c = ']' || c = '}'

mutual

/-- Parser fuel sufficient for one JSON value. -/
def jfuel : JVal → Nat
  | .jarr xs => 1 + jfuelElems xs
  | .jobj ms => 1 + jfuelMembers ms
  | _ => 1

/-- Parser fuel sufficient for a non-empty comma-separated element list. -/
def jfuelElems : List JVal → Nat
  | [] => 0
  | x :: xs => 1 + max (jfuel x) (jfuelElems xs)

/-- Parser fuel sufficient for a non-empty member list. -/
def jfuelMembers : List (String × JVal) → Nat
  | [] => 0
  | (_, v) :: ms => 1 + max (jfuel v) (jfuelMembers ms)

end

/-- Check that the typing signals inside a frame trace strictly alternate,
`b` saying whether the next typing signal must be `typing_start`.
Non-typing frames are skipped. -/
def altExpect : Bool → List WireMsg → Bool
  | _, [] => true
  | b, .typingStart :: rest => b && altExpect false rest
  | b, .typingStop :: rest => !b && altExpect true rest
  | b, _ :: rest => altExpect b rest

/-! ## Theorems: A/B test winner rule (C2) -/

/-- C2 (counterexample): at the sample experiment the code computes
`score_b = 4.5 * 162 = 729`, not the `708.3` the claim names. -/
theorem abtest_sample_scoreB_not_708_3 : scoreB sampleMetrics ≠ 7083 / 10 := by
  norm_num [scoreB, sampleMetrics]

/-- C2 (amended): the displayed winner compares
`satisfaction_a * conversations_a` with `satisfaction_b * conversations_b`;
the higher product wins, both conversation counts zero gives "No data yet",
and equal products otherwise give "Tie".  At the sample experiment
(156 / 4.2 versus 162 / 4.5) side B wins with products 655.2 versus 729;
with both conversation counts zero the result is "No data yet" whatever the
satisfaction values; and the API-integrated variant agrees with the
mock-data variant on fully populated metrics. -/
theorem abtest_winner_rule :
    (∀ m : ABMetrics,
      calculateWinner m =
        if m.conversations_a = 0 ∧ m.conversations_b = 0 then ABWinner.noData
        else if scoreB m < scoreA m then ABWinner.sideA
        else if scoreA m < scoreB m then ABWinner.sideB
        else ABWinner.tie) ∧
    calculateWinner sampleMetrics = ABWinner.sideB ∧
    scoreA sampleMetrics = 6552 / 10 ∧
    scoreB sampleMetrics = 729 ∧
    (∀ sa sb : ℚ, calculateWinner ⟨0, 0, sa, sb⟩ = ABWinner.noData) ∧
    (∀ m : ABMetrics,
      calculateWinnerApi (some ⟨some m.conversations_a, some m.conversations_b,
        some m.satisfaction_a, some m.satisfaction_b⟩) = calculateWinner m) := by
  refine ⟨fun m => rfl, ?_, ?_, ?_, fun sa sb => by simp [calculateWinner], fun m => rfl⟩
  · have h1 : ¬(sampleMetrics.conversations_a = 0 ∧ sampleMetrics.conversations_b = 0) := by
      norm_num [sampleMetrics]
    have h2 : ¬scoreA sampleMetrics > scoreB sampleMetrics := by
      norm_num [scoreA, scoreB, sampleMetrics]
    have h3 : scoreB sampleMetrics > scoreA sampleMetrics := by
      norm_num [scoreA, scoreB, sampleMetrics]
    simp only [calculateWinner, h1, h2, h3, if_true, if_false, ite_true, ite_false]
  · norm_num [scoreA, sampleMetrics]
  · norm_num [scoreB, sampleMetrics]

/-! ## Theorems: theme-color cap (C6) -/

/-- C6: `addThemeColor` at five theme colors leaves the avatar unchanged
and raises the inline error; below five it appends exactly the staged
color; and the five-color bound is preserved. -/
theorem addThemeColor_cap (s : DesignerState) :
    (s.avatarData.branding_elements.theme_colors.length = 5 →
      (addThemeColor s).avatarData = s.avatarData ∧
      (addThemeColor s).avatarData.branding_elements.theme_colors.length = 5 ∧
      (addThemeColor s).errorMsg = some "Maximum 5 theme colors allowed") ∧
    (s.avatarData.branding_elements.theme_colors.length < 5 →
      (addThemeColor s).avatarData.branding_elements.theme_colors =
        s.avatarData.branding_elements.theme_colors ++ [s.newThemeColor] ∧
      (addThemeColor s).avatarData.branding_elements.theme_colors.length =
        s.avatarData.branding_elements.theme_colors.length + 1) ∧
    (s.avatarData.branding_elements.theme_colors.length ≤ 5 →
      (addThemeColor s).avatarData.branding_elements.theme_colors.length ≤ 5) := by
  refine ⟨fun h5 => ?_, fun hlt => ?_, fun hle => ?_⟩
  · simp [addThemeColor, h5]
  · simp [addThemeColor, Nat.not_le.mpr hlt]
  · rcases Nat.lt_or_ge s.avatarData.branding_elements.theme_colors.length 5 with h | h
    · simp [addThemeColor, Nat.not_le.mpr h]
      omega
    · simp [addThemeColor, h]
      omega

/-- C6 (witness): the cap at a five-color avatar and the append on the
three-color default template. -/
theorem addThemeColor_cap_witness :
    ((addThemeColor
        ⟨{ defaultAvatarTemplate with
            branding_elements :=
              { defaultAvatarTemplate.branding_elements with
                theme_colors := ["#1", "#2", "#3", "#4", "#5"] } },
          "#fff", none⟩).errorMsg = some "Maximum 5 theme colors allowed") ∧
    (addThemeColor
        ⟨defaultAvatarTemplate, "#fff", none⟩).avatarData.branding_elements.theme_colors =
      ["#2C5F8D", "#5CA3D5", "#A8D0E6", "#fff"] :=
  ⟨((addThemeColor_cap _).1 (by decide)).2.2,
   ((addThemeColor_cap ⟨defaultAvatarTemplate, "#fff", none⟩).2.1 (by decide)).1⟩

/-! ## Theorems: default-merge identity on complete avatars (C4) -/

/-- C4: on an avatar that already specifies every template field (all
sections present, `animation_behaviors` non-empty), `withDefaults` is the
identity. -/
theorem withDefaults_complete_identity (a : AvatarData)
    (h : a.animation_behaviors ≠ []) :
    withDefaults (some (toOptAvatarData a)) = a := by
  cases a with
  | mk id name va vc pt ab be =>
    cases ab with
    | nil => exact absurd rfl h
    | cons x xs => rfl

/-- C4 (witness): `withDefaults` fixes the default template itself. -/
theorem withDefaults_complete_identity_witness :
    withDefaults (some (toOptAvatarData defaultAvatarTemplate)) = defaultAvatarTemplate :=
  withDefaults_complete_identity defaultAvatarTemplate (by decide)

/-! ## Theorems: reconnect backoff (C3) -/

/-- C3: from a fresh widget, five consecutive close events schedule
reconnects after 1000, 2000, 4000, 8000 and 16000 ms in that order with
input still enabled, and the following close event disables input and
schedules nothing. -/
theorem reconnect_backoff_schedule :
    ((List.range 5).map fun i =>
      (runWidget initialWidgetState
        (List.replicate (i + 1) WidgetEvent.sockClose)).scheduledReconnect) =
      [some 1000, some 2000, some 4000, some 8000, some 16000] ∧
    (runWidget initialWidgetState
      (List.replicate 5 WidgetEvent.sockClose)).inputDisabled = false ∧
    (runWidget initialWidgetState
      (List.replicate 6 WidgetEvent.sockClose)).scheduledReconnect = none ∧
    (runWidget initialWidgetState
      (List.replicate 6 WidgetEvent.sockClose)).inputDisabled = true := by
  refine ⟨?_, rfl, rfl, rfl⟩
  rfl

/-! ## Theorems: outbound queue discipline (C5) -/

/-- The queue-flush loop entered with the socket open moves the whole
queue onto the wire in order. -/
theorem processQueueAux_flush (q : List WireMsg) (s : WidgetState)
    (hc : s.isConnected = true) (ho : s.wsOpen = true) (hq : s.messageQueue = q) :
    processQueueAux q.length s = { s with messageQueue := [], wire := s.wire ++ q } := by
  induction q generalizing s with
  | nil =>
    cases s
    simp only [WidgetState.messageQueue] at hq
    subst hq
    simp [processQueueAux]
  | cons m rest ih =>
    have step :
        processQueueAux (rest.length + 1) s =
          processQueueAux rest.length (sendToWebSocket { s with messageQueue := rest } m) := by
      simp [processQueueAux, hq, hc]
    rw [List.length_cons, step]
    rw [ih (sendToWebSocket { s with messageQueue := rest } m)
      (by simp [sendToWebSocket, hc, ho]) (by simp [sendToWebSocket, hc, ho])
      (by simp [sendToWebSocket, hc, ho])]
    simp [sendToWebSocket, hc, ho]

/-- C5 (counterexample): with the socket disconnected and `"hello"` in the
field, the send action returns early — the message is neither queued nor
sent, contradicting "every outbound message composed while the socket is
not open is queued rather than dropped" for the text path. -/
theorem sendMessage_disconnected_drops :
    widgetStep { initialWidgetState with inputValue := "hello" } .send =
      { initialWidgetState with inputValue := "hello" } ∧
    (widgetStep { initialWidgetState with inputValue := "hello" } .send).messageQueue = [] ∧
    (widgetStep { initialWidgetState with inputValue := "hello" } .send).emitted = [] := by
  decide

/-- C5 (amended): every frame handed to `sendToWebSocket` while the socket
is not open is appended to the queue, which the reopen handler flushes to
the wire in strict FIFO order; voice and `media_upload` frames always
reach `sendToWebSocket`; but a text submission made while `isConnected` is
false is discarded by `sendMessage`'s early return (the field keeps its
content and nothing is queued) — text is queued only when `isConnected`
still holds while the socket is no longer OPEN. -/
theorem outbound_queue_discipline :
    (∀ (s : WidgetState) (m : WireMsg), (s.isConnected && s.wsOpen) = false →
      sendToWebSocket s m = { s with messageQueue := s.messageQueue ++ [m] }) ∧
    (∀ s : WidgetState,
      (widgetStep s .sockOpen).wire = s.wire ++ s.messageQueue ∧
      (widgetStep s .sockOpen).messageQueue = []) ∧
    (∀ s : WidgetState, s.isConnected = false → widgetStep s .send = s) ∧
    (∀ (s : WidgetState) (f : FileData),
      (s.isConnected && s.wsOpen) = false → ¬f.size > 10 * 1024 * 1024 →
      (widgetStep s (.fileSelected f)).messageQueue =
        s.messageQueue ++ [.mediaUpload (readAsDataURL f) f.name f.mimetype]) ∧
    (∀ (s : WidgetState) (audio : List Nat), (s.isConnected && s.wsOpen) = false →
      (widgetStep s (.voiceDone audio)).messageQueue =
        s.messageQueue ++ [.voice (readAsDataURL ⟨"", "audio/wav", audio⟩)]) := by
  refine ⟨fun s m h => ?_, fun s => ?_, fun s h => ?_, fun s f h hsz => ?_, fun s audio h => ?_⟩
  · simp [sendToWebSocket, h]
  · have := processQueueAux_flush s.messageQueue
      { s with isConnected := true, wsOpen := true, reconnectAttempts := 0,
               systemMessages := [] } rfl rfl rfl
    constructor <;> simp [widgetStep, handleOpen, processMessageQueue, this]
  · simp [widgetStep, sendMessageClick, h]
  · simp [widgetStep, handleFileUpload, hsz, emitMsg, sendToWebSocket, h]
  · simp [widgetStep, handleVoiceRecording, emitMsg, sendToWebSocket, h]

/-- C5 (witness): the amended discipline at concrete states — a frame
queued while disconnected, a queue of two frames flushed in order on
reopen, a dropped disconnected text send, and a 3-byte file queued while
disconnected. -/
theorem outbound_queue_discipline_witness :
    sendToWebSocket initialWidgetState .typingStart =
      { initialWidgetState with messageQueue := [.typingStart] } ∧
    (widgetStep { initialWidgetState with
        messageQueue := [.text "a", .text "b"] } .sockOpen).wire = [.text "a", .text "b"] ∧
    widgetStep { initialWidgetState with inputValue := "hi" } .send =
      { initialWidgetState with inputValue := "hi" } ∧
    (widgetStep initialWidgetState
        (.fileSelected ⟨"f.txt", "text/plain", [104, 105, 33]⟩)).messageQueue =
      [.mediaUpload (readAsDataURL ⟨"f.txt", "text/plain", [104, 105, 33]⟩) "f.txt" "text/plain"] := by
  refine ⟨?_, ?_, ?_, ?_⟩
  · exact outbound_queue_discipline.1 initialWidgetState .typingStart rfl
  · have h := (outbound_queue_discipline.2.1
      { initialWidgetState with messageQueue := [.text "a", .text "b"] }).1
    simpa using h
  · exact outbound_queue_discipline.2.2.1 _ rfl
  · have h := outbound_queue_discipline.2.2.2.1 initialWidgetState
      ⟨"f.txt", "text/plain", [104, 105, 33]⟩ rfl (by decide)
    simpa using h

/-! ## Theorems: typing-stop guarantee (C7) -/

/-- C7: from a connected, idle widget, one input event leaving a non-empty
field sends `typing_start` and arms the idle timer; the timer firing one
second later sends exactly one `typing_stop` even though the field is
still non-empty, and a stray later timer event sends nothing further. -/
theorem typing_stop_after_idle (v : String) (hv : jsTrim v ≠ "") :
    (widgetStep { initialWidgetState with isConnected := true, wsOpen := true }
        (.input v)).emitted = [WireMsg.typingStart] ∧
    (widgetStep (widgetStep { initialWidgetState with isConnected := true, wsOpen := true }
        (.input v)) .timer).emitted = [WireMsg.typingStart, WireMsg.typingStop] ∧
    (widgetStep (widgetStep { initialWidgetState with isConnected := true, wsOpen := true }
        (.input v)) .timer).inputValue = v ∧
    widgetStep (widgetStep (widgetStep { initialWidgetState with
        isConnected := true, wsOpen := true } (.input v)) .timer) .timer =
      widgetStep (widgetStep { initialWidgetState with isConnected := true, wsOpen := true }
        (.input v)) .timer := by
  refine ⟨?_, ?_, ?_, ?_⟩ <;>
    simp [widgetStep, handleTyping, typingTimerFire, stopTyping, emitMsg,
      sendToWebSocket, initialWidgetState, hv]

/-- C7 (witness): the guarantee at the concrete input `"hi"`. -/
theorem typing_stop_after_idle_witness :
    jsTrim "hi" ≠ "" ∧
    (widgetStep (widgetStep { initialWidgetState with isConnected := true, wsOpen := true }
        (.input "hi")) .timer).emitted = [WireMsg.typingStart, WireMsg.typingStop] :=
  ⟨by decide, (typing_stop_after_idle "hi" (by decide)).2.1⟩

/-! ## Theorems: file-size guard (C8) -/

/-- C8: a file over `10 * 1024 * 1024` bytes only adds the inline error —
state otherwise untouched, so no frame is read, queued or sent; a file of
exactly `10 * 1024 * 1024` bytes is read and its `media_upload` frame,
carrying the base64 data URI, filename and MIME type, is submitted for
sending. -/
theorem file_upload_size_guard (s : WidgetState) (f : FileData) :
    (f.size > 10 * 1024 * 1024 →
      widgetStep s (.fileSelected f) =
        { s with systemMessages :=
            s.systemMessages ++ ["File size must be less than 10MB"] }) ∧
    (f.size = 10 * 1024 * 1024 →
      widgetStep s (.fileSelected f) =
        emitMsg s (.mediaUpload (readAsDataURL f) f.name f.mimetype) ∧
      (widgetStep s (.fileSelected f)).emitted =
        s.emitted ++ [.mediaUpload (readAsDataURL f) f.name f.mimetype]) := by
  constructor
  · intro h
    simp [widgetStep, handleFileUpload, h]
  · intro h
    have hns : ¬f.size > 10 * 1024 * 1024 := by omega
    have hstep : widgetStep s (.fileSelected f) =
        emitMsg s (.mediaUpload (readAsDataURL f) f.name f.mimetype) := by
      simp [widgetStep, handleFileUpload, hns]
    refine ⟨hstep, ?_⟩
    rw [hstep]
    simp only [emitMsg, sendToWebSocket]
    split <;> rfl

/-- C8 (witness): a 10 MiB + 1 byte file is rejected with the inline
error; a 10 MiB file's `media_upload` frame is submitted. -/
theorem file_upload_size_guard_witness :
    (FileData.size ⟨"big.bin", "application/octet-stream",
        List.replicate (10 * 1024 * 1024 + 1) 0⟩ > 10 * 1024 * 1024 ∧
      widgetStep initialWidgetState (.fileSelected ⟨"big.bin", "application/octet-stream",
          List.replicate (10 * 1024 * 1024 + 1) 0⟩) =
        { initialWidgetState with
            systemMessages := initialWidgetState.systemMessages ++
              ["File size must be less than 10MB"] }) ∧
    (FileData.size ⟨"ok.bin", "application/octet-stream",
        List.replicate (10 * 1024 * 1024) 0⟩ = 10 * 1024 * 1024 ∧
      (widgetStep initialWidgetState (.fileSelected ⟨"ok.bin", "application/octet-stream",
          List.replicate (10 * 1024 * 1024) 0⟩)).emitted =
        initialWidgetState.emitted ++
          [.mediaUpload (readAsDataURL ⟨"ok.bin", "application/octet-stream",
            List.replicate (10 * 1024 * 1024) 0⟩) "ok.bin" "application/octet-stream"]) := by
  have h1 : FileData.size ⟨"big.bin", "application/octet-stream",
      List.replicate (10 * 1024 * 1024 + 1) 0⟩ > 10 * 1024 * 1024 := by
    show (List.replicate (10 * 1024 * 1024 + 1) (0 : Nat)).length > 10 * 1024 * 1024
    rw [List.length_replicate]
    omega
  have h2 : FileData.size ⟨"ok.bin", "application/octet-stream",
      List.replicate (10 * 1024 * 1024) 0⟩ = 10 * 1024 * 1024 := by
    show (List.replicate (10 * 1024 * 1024) (0 : Nat)).length = 10 * 1024 * 1024
    rw [List.length_replicate]
  exact ⟨⟨h1, (file_upload_size_guard _ _).1 h1⟩,
    ⟨h2, ((file_upload_size_guard _ _).2 h2).2⟩⟩

/-! ## Theorems: typing signals strictly alternate (C10) -/

/-- `sendToWebSocket` never changes the ghost trace or the typing flag. -/
theorem sendToWebSocket_ghost (s : WidgetState) (m : WireMsg) :
    (sendToWebSocket s m).emitted = s.emitted ∧
    (sendToWebSocket s m).isTyping = s.isTyping := by
  simp only [sendToWebSocket]
  split <;> exact ⟨rfl, rfl⟩

/-- `emitMsg` appends its frame to the ghost trace and keeps the typing
flag. -/
theorem emitMsg_ghost (s : WidgetState) (m : WireMsg) :
    (emitMsg s m).emitted = s.emitted ++ [m] ∧
    (emitMsg s m).isTyping = s.isTyping := by
  simp only [emitMsg]
  exact ⟨by rw [(sendToWebSocket_ghost s m).1], (sendToWebSocket_ghost s m).2⟩

/-- Scanning a trace extended by one frame. -/
theorem typingAltState_append (l : List WireMsg) (m : WireMsg) :
    typingAltState (l ++ [m]) = typingScan (typingAltState l) m := by
  simp [typingAltState, List.foldl_append]

/-- Scanning a trace extended by two frames. -/
theorem typingAltState_append2 (l : List WireMsg) (m1 m2 : WireMsg) :
    typingAltState (l ++ [m1, m2]) =
      typingScan (typingScan (typingAltState l) m1) m2 := by
  simp [typingAltState, List.foldl_append]


/-- Projection facts for `emitMsg` and `stopTyping`, letting the
invariant proofs track only the ghost trace and the typing flag. -/
@[simp] theorem emitMsg_emitted (s : WidgetState) (m : WireMsg) :
    (emitMsg s m).emitted = s.emitted ++ [m] :=
  (emitMsg_ghost s m).1

/-- The typing flag is untouched by `emitMsg`. -/
@[simp] theorem emitMsg_isTyping (s : WidgetState) (m : WireMsg) :
    (emitMsg s m).isTyping = s.isTyping :=
  (emitMsg_ghost s m).2

/-- The ghost trace after `stopTyping`. -/
@[simp] theorem stopTyping_emitted (s : WidgetState) :
    (stopTyping s).emitted =
      if s.isTyping then s.emitted ++ [.typingStop] else s.emitted := by
  simp only [stopTyping]
  split <;> simp_all

/-- The typing flag is cleared by `stopTyping`. -/
@[simp] theorem stopTyping_isTyping (s : WidgetState) :
    (stopTyping s).isTyping = false := by
  simp only [stopTyping]
  split <;> simp_all

/-- The flush loop does not touch the ghost emitted trace or the typing
flag. -/
theorem processQueueAux_emitted_isTyping (n : Nat) (s : WidgetState) :
    (processQueueAux n s).emitted = s.emitted ∧
    (processQueueAux n s).isTyping = s.isTyping := by
  induction n generalizing s with
  | zero => simp [processQueueAux]
  | succ k ih =>
    rw [processQueueAux]
    split
    · next m rest hq hc =>
      have hg := sendToWebSocket_ghost { s with messageQueue := rest } m
      have hih := ih (sendToWebSocket { s with messageQueue := rest } m)
      refine ⟨?_, ?_⟩
      · rw [hih.1, hg.1]
      · rw [hih.2, hg.2]
    · exact ⟨rfl, rfl⟩

/-- Each widget event preserves the typing-alternation invariant relating
the emitted trace to the `isTyping` flag. -/
theorem typing_alt_step (s : WidgetState) (e : WidgetEvent)
    (h : typingAltState s.emitted = some s.isTyping) :
    typingAltState (widgetStep s e).emitted = some (widgetStep s e).isTyping := by
  cases e with
  | input v =>
    simp only [widgetStep, handleTyping]
    split_ifs with h1 h2
    · have hsT : s.isTyping = false := by
        cases hb : s.isTyping
        · rfl
        · exact absurd hb (by simpa using h1.2)
      simp [typingAltState_append, h, hsT, typingScan]
    · have hsT : s.isTyping = true := h2.2
      simp [typingAltState_append, h, hsT, typingScan]
    · simpa using h
  | timer =>
    simp only [widgetStep, typingTimerFire]
    split_ifs with ht
    · cases hit : s.isTyping
      · simpa [hit] using h
      · simp [hit, typingAltState_append, h, typingScan]
    · exact h
  | send =>
    simp only [widgetStep, sendMessageClick]
    split_ifs with hd
    · exact h
    · cases hit : s.isTyping
      · simp [hit, typingAltState_append, h, typingScan]
      · simp [hit, typingAltState_append2, h, typingScan]
  | sockOpen =>
    simp only [widgetStep, handleOpen, processMessageQueue]
    have hp := processQueueAux_emitted_isTyping s.messageQueue.length
      { s with isConnected := true, wsOpen := true, reconnectAttempts := 0,
               systemMessages := [] }
    rw [hp.1, hp.2]
    simpa using h
  | sockClose =>
    simp only [widgetStep, handleClose, handleDisconnection]
    split_ifs with hr <;> simpa using h
  | fileSelected f =>
    simp only [widgetStep, handleFileUpload]
    split_ifs with hsz
    · simpa using h
    · simp [typingAltState_append, h, typingScan]
  | voiceDone audio =>
    simp only [widgetStep, handleVoiceRecording]
    simp [typingAltState_append, h, typingScan]

/-- The invariant over a whole event sequence. -/
theorem typing_alt_run (evs : List WidgetEvent) (s : WidgetState)
    (h : typingAltState s.emitted = some s.isTyping) :
    typingAltState (runWidget s evs).emitted = some (runWidget s evs).isTyping := by
  induction evs generalizing s with
  | nil => exact h
  | cons e rest ih =>
    simp only [runWidget, List.foldl_cons]
    exact ih (widgetStep s e) (typing_alt_step s e h)

/-- Scanning from the failure state never recovers. -/
theorem typingScan_none (l : List WireMsg) : l.foldl typingScan none = none := by
  induction l with
  | nil => rfl
  | cons m rest ih => simpa [typingScan] using ih

/-- A successful alternation scan from typing state `b` means the trace's
typing signals strictly alternate, the next expected signal being
`typing_start` exactly when `b` is false. -/
theorem altExpect_of_scan (l : List WireMsg) (b b2 : Bool)
    (h : l.foldl typingScan (some b) = some b2) : altExpect (!b) l = true := by
  induction l generalizing b with
  | nil => simp [altExpect]
  | cons m rest ih =>
    cases m with
    | typingStart =>
      cases b with
      | false =>
        simp only [List.foldl_cons, typingScan, if_false, ite_false] at h
        simpa [altExpect] using ih true h
      | true =>
        simp [typingScan, typingScan_none] at h
    | typingStop =>
      cases b with
      | true =>
        simp only [List.foldl_cons, typingScan, if_true, ite_true] at h
        simpa [altExpect] using ih false h
      | false =>
        simp [typingScan, typingScan_none] at h
    | text c => simpa [altExpect, typingScan] using ih b (by simpa [typingScan] using h)
    | voice c => simpa [altExpect, typingScan] using ih b (by simpa [typingScan] using h)
    | mediaUpload c fn mt =>
      simpa [altExpect, typingScan] using ih b (by simpa [typingScan] using h)

/-- C10: over every event sequence from a fresh widget, the emitted
typing signals strictly alternate starting with `typing_start` (no two
consecutive `typing_start`s or `typing_stop`s without the opposite signal
between them), and the scan state equals the widget's `isTyping` flag. -/
theorem typing_signals_strictly_alternate (evs : List WidgetEvent) :
    altExpect true (runWidget initialWidgetState evs).emitted = true ∧
    typingAltState (runWidget initialWidgetState evs).emitted =
      some (runWidget initialWidgetState evs).isTyping := by
  have h := typing_alt_run evs initialWidgetState
    (by simp [initialWidgetState, typingAltState])
  exact ⟨by simpa using altExpect_of_scan _ false _ h, h⟩

/-! ## Theorems: message escaping (C9) -/

/-- Reading one escaped character back. -/
theorem unescapeHtmlAux_chunk (c : Char) (rest : List Char) :
    unescapeHtmlAux (escapeHtmlChar c ++ rest) = c :: unescapeHtmlAux rest := by
  by_cases h1 : c = '&'
  · subst h1
    simp [escapeHtmlChar, unescapeHtmlAux]
  · by_cases h2 : c = '<'
    · subst h2
      simp [escapeHtmlChar, unescapeHtmlAux]
    · by_cases h3 : c = '>'
      · subst h3
        simp [escapeHtmlChar, unescapeHtmlAux]
      · simp only [escapeHtmlChar, h1, h2, h3, if_false, ite_false,
          List.singleton_append]
        rw [unescapeHtmlAux] <;> intro r hc hr <;> exact absurd hc h1

/-- Escaped text decodes back to the original character list. -/
theorem unescapeHtmlAux_escape (l : List Char) :
    unescapeHtmlAux (l.flatMap escapeHtmlChar) = l := by
  induction l with
  | nil => simp [unescapeHtmlAux]
  | cons c rest ih =>
    rw [List.flatMap_cons, unescapeHtmlAux_chunk]
    rw [ih]

/-- No escaped chunk contains an angle bracket. -/
theorem escapeHtmlChar_no_lt (c : Char) : '<' ∉ escapeHtmlChar c := by
  by_cases h1 : c = '&'
  · subst h1; decide
  · by_cases h2 : c = '<'
    · subst h2; decide
    · by_cases h3 : c = '>'
      · subst h3; decide
      · simp [escapeHtmlChar, h1, h2, h3]
        exact fun hc => h2 hc.symm

/-- C9: user-supplied message text is rendered literally: escaping then
parsing the entities back is the identity, the escaped markup contains no
`<` at all (so no `<script>` or any other tag can be formed from message
content inserted by `showMessage`), and the simple widget's bubble shows
the message verbatim as a text node. -/
theorem message_rendered_literally (s : String) (who : String) :
    unescapeHtml (escapeHtml s) = s ∧
    (escapeHtml s).toList.contains '<' = false ∧
    domText (createMessageBubble s who) = s := by
  refine ⟨?_, ?_, ?_⟩
  · cases s with
    | mk l =>
      simp [escapeHtml, unescapeHtml, unescapeHtmlAux_escape]
  · cases s with
    | mk l =>
      simp only [escapeHtml]
      rw [Bool.eq_false_iff]
      intro hcon
      rcases List.contains_iff_exists_mem_beq.mp hcon with ⟨x, hx, hbeq⟩
      rcases List.mem_flatMap.mp (by simpa using hx) with ⟨y, _, hmem⟩
      have hxeq : '<' = x := by simpa using hbeq
      exact escapeHtmlChar_no_lt y (by rwa [← hxeq] at hmem)
  · simp [createMessageBubble, domText, domTextList]

/-! ## Theorems: the preview-config round trip (C1).
First the byte-level codec stages, then the JSON round trip, then the
whole chain. -/

/-- Hex digits read back their value (uppercase table). -/
theorem hexCharVal_upper (n : Nat) (h : n < 16) :
    hexCharVal (hexDigitUpper n) = some n := by
  interval_cases n <;> decide

/-- Hex digits read back their value (lowercase table). -/
theorem hexCharVal_lower (n : Nat) (h : n < 16) :
    hexCharVal (hexDigitLower n) = some n := by
  interval_cases n <;> decide

/-- `Char.ofNat` below the surrogate range keeps the code point. -/
theorem toNat_charOfNat (n : Nat) (h : n < 0xd800) : (Char.ofNat n).toNat = n := by
  have hv : n.isValidChar := Or.inl h
  simp only [Char.ofNat, hv, dif_pos, Char.ofNatAux, Char.toNat, UInt32.toNat]
  simp [BitVec.toNat_ofNatLt]

/-- Every character's code point is a Unicode scalar value bound. -/
theorem char_toNat_lt (c : Char) : c.toNat < 1114112 := by
  rcases c.valid with h | ⟨_, h2⟩
  · exact Nat.lt_trans (by exact_mod_cast h) (by norm_num)
  · exact_mod_cast h2

/-- UTF-8 bytes are bytes. -/
theorem utf8EncodeNat_lt_256 (n : Nat) (hn : n < 1114112) :
    ∀ b ∈ utf8EncodeNat n, b < 256 := by
  intro b hb
  simp only [utf8EncodeNat] at hb
  split_ifs at hb with h1 h2 h3 <;> simp only [List.mem_cons, List.mem_singleton,
    List.not_mem_nil, or_false] at hb
  · omega
  · rcases hb with hb | hb <;> subst hb <;> omega
  · rcases hb with hb | hb | hb <;> subst hb <;> omega
  · rcases hb with hb | hb | hb | hb <;> subst hb <;> omega

/-- Decoding one encoded character off the front of a byte stream. -/
theorem utf8Decode_encodeChar (c : Char) (rest : List Nat) :
    utf8Decode (utf8EncodeChar c ++ rest) =
      (c :: ·) <$> utf8Decode rest := by
  have hlt := char_toNat_lt c
  simp only [utf8EncodeChar, utf8EncodeNat]
  split_ifs with h1 h2 h3
  · rw [List.cons_append, List.nil_append, utf8Decode]
    rw [if_pos h1, Char.ofNat_toNat]
  · rw [List.cons_append, List.cons_append, List.nil_append, utf8Decode]
    rw [if_neg (by omega), if_neg (by omega), if_pos (by omega)]
    rw [utf8DecTwo]
    have hcont : utf8Cont (128 + c.toNat % 64) = true := by
      simp only [utf8Cont, decide_eq_true_eq]
      omega
    rw [if_pos hcont]
    have hval : (192 + c.toNat / 64 - 0xC0) * 64 + (128 + c.toNat % 64 - 0x80) = c.toNat := by
      omega
    rw [hval, Char.ofNat_toNat]
  · simp only [List.cons_append, List.nil_append]
    rw [utf8Decode]
    rw [if_neg (by omega), if_neg (by omega), if_neg (by omega), if_pos (by omega)]
    rw [utf8DecThree]
    have hc1 : utf8Cont (128 + c.toNat / 64 % 64) = true := by
      simp only [utf8Cont, decide_eq_true_eq]; omega
    have hc2 : utf8Cont (128 + c.toNat % 64) = true := by
      simp only [utf8Cont, decide_eq_true_eq]; omega
    rw [if_pos (by simp [hc1, hc2])]
    have hval : (224 + c.toNat / 4096 - 0xE0) * 4096 + (128 + c.toNat / 64 % 64 - 0x80) * 64 +
        (128 + c.toNat % 64 - 0x80) = c.toNat := by
      omega
    rw [hval, Char.ofNat_toNat]
  · simp only [List.cons_append, List.nil_append]
    rw [utf8Decode]
    rw [if_neg (by omega), if_neg (by omega), if_neg (by omega), if_neg (by omega),
      if_pos (by omega)]
    rw [utf8DecFour]
    have hc1 : utf8Cont (128 + c.toNat / 4096 % 64) = true := by
      simp only [utf8Cont, decide_eq_true_eq]; omega
    have hc2 : utf8Cont (128 + c.toNat / 64 % 64) = true := by
      simp only [utf8Cont, decide_eq_true_eq]; omega
    have hc3 : utf8Cont (128 + c.toNat % 64) = true := by
      simp only [utf8Cont, decide_eq_true_eq]; omega
    rw [if_pos (by simp [hc1, hc2, hc3])]
    have hval : (240 + c.toNat / 262144 - 0xF0) * 262144 +
        (128 + c.toNat / 4096 % 64 - 0x80) * 4096 +
        (128 + c.toNat / 64 % 64 - 0x80) * 64 + (128 + c.toNat % 64 - 0x80) = c.toNat := by
      omega
    rw [hval, Char.ofNat_toNat]

/-- UTF-8 decoding inverts encoding. -/
theorem utf8Decode_encode (l : List Char) : utf8Decode (utf8Encode l) = some l := by
  induction l with
  | nil => simp [utf8Encode, utf8Decode]
  | cons c rest ih =>
    rw [utf8Encode, List.flatMap_cons, ← utf8Encode]
    rw [utf8Decode_encodeChar, ih]
    rfl

/-- The base64 alphabet reads back the 6-bit value. -/
theorem b64Val_b64Char (v : Nat) (h : v < 64) : b64Val (b64Char v) = some v := by
  interval_cases v <;> decide

/-- Base64 characters are ASCII, never `%`, `+` is in the alphabet but
`=` and alphabet members are all below 128. -/
theorem b64Alphabet_ascii : ∀ c ∈ b64Alphabet, c.toNat < 128 ∧ c ≠ '%' := by
  decide

/-- `b64Char` output is in the alphabet. -/
theorem b64Char_mem (v : Nat) (h : v < 64) : b64Char v ∈ b64Alphabet := by
  interval_cases v <;> decide

/-- Every character `btoaBytes` emits is an alphabet character or `=`. -/
theorem btoaBytes_chars (bs : List Nat) (hb : ∀ b ∈ bs, b < 256) :
    ∀ c ∈ btoaBytes bs, c ∈ b64Alphabet ∨ c = '=' := by
  induction bs using btoaBytes.induct with
  | case1 => intro c hc; simp [btoaBytes] at hc
  | case2 b1 =>
    intro c hc
    have h1 : b1 < 256 := hb b1 (by simp)
    simp only [btoaBytes, List.mem_cons, List.mem_singleton, List.not_mem_nil,
      or_false] at hc
    rcases hc with hc | hc | hc | hc <;> subst hc <;>
      first
        | exact Or.inr rfl
        | exact Or.inl (b64Char_mem _ (by omega))
  | case3 b1 b2 =>
    intro c hc
    have h1 : b1 < 256 := hb b1 (by simp)
    have h2 : b2 < 256 := hb b2 (by simp)
    simp only [btoaBytes, List.mem_cons, List.mem_singleton, List.not_mem_nil,
      or_false] at hc
    rcases hc with hc | hc | hc | hc <;> subst hc <;>
      first
        | exact Or.inr rfl
        | exact Or.inl (b64Char_mem _ (by omega))
  | case4 b1 b2 b3 rest ih =>
    intro c hc
    have h1 : b1 < 256 := hb b1 (by simp)
    have h2 : b2 < 256 := hb b2 (by simp)
    have h3 : b3 < 256 := hb b3 (by simp)
    simp only [btoaBytes, List.mem_cons] at hc
    rcases hc with hc | hc | hc | hc | hc
    · exact hc ▸ Or.inl (b64Char_mem _ (by omega))
    · exact hc ▸ Or.inl (b64Char_mem _ (by omega))
    · exact hc ▸ Or.inl (b64Char_mem _ (by omega))
    · exact hc ▸ Or.inl (b64Char_mem _ (by omega))
    · exact ih (fun b hbm => hb b (by simp [hbm])) c hc

/-- Alphabet characters are never the padding character. -/
theorem b64Char_ne_pad : ∀ v < 64, b64Char v ≠ '=' := by decide

/-- `atob` inverts `btoa` on byte lists. -/
theorem atob_btoaBytes (bs : List Nat) (hb : ∀ b ∈ bs, b < 256) :
    atobChars (btoaBytes bs) = some bs := by
  induction bs using btoaBytes.induct with
  | case1 => rfl
  | case2 b1 =>
    have h1 : b1 < 256 := hb b1 (by simp)
    rw [btoaBytes, atobChars]
    rw [if_pos ⟨rfl, rfl, rfl⟩]
    rw [b64Val_b64Char _ (by omega), b64Val_b64Char _ (by omega)]
    simp only [Option.bind_eq_bind, Option.some_bind]
    congr 2
    omega
  | case3 b1 b2 =>
    have h1 : b1 < 256 := hb b1 (by simp)
    have h2 : b2 < 256 := hb b2 (by simp)
    rw [btoaBytes, atobChars]
    rw [if_neg (by rintro ⟨hc, -⟩; exact b64Char_ne_pad _ (by omega) hc)]
    rw [if_pos ⟨rfl, rfl⟩]
    rw [b64Val_b64Char _ (by omega), b64Val_b64Char _ (by omega),
      b64Val_b64Char _ (by omega)]
    simp only [Option.bind_eq_bind, Option.some_bind]
    congr 1
    congr 1
    · omega
    · congr 1
      omega
  | case4 b1 b2 b3 rest ih =>
    have h1 : b1 < 256 := hb b1 (by simp)
    have h2 : b2 < 256 := hb b2 (by simp)
    have h3 : b3 < 256 := hb b3 (by simp)
    have hrest := ih (fun b hbm => hb b (by simp [hbm]))
    rw [btoaBytes, atobChars]
    rw [if_neg (by rintro ⟨hc, -⟩; exact b64Char_ne_pad _ (by omega) hc)]
    rw [if_neg (by rintro ⟨hc, -⟩; exact b64Char_ne_pad _ (by omega) hc)]
    rw [b64Val_b64Char _ (by omega), b64Val_b64Char _ (by omega),
      b64Val_b64Char _ (by omega), b64Val_b64Char _ (by omega)]
    simp only [Option.bind_eq_bind, Option.some_bind, hrest]
    congr 1
    congr 1
    · omega
    · congr 1
      · omega
      · congr 1
        omega

/-- Alphabetic characters are ASCII. -/
theorem char_isAlpha_lt (c : Char) (h : c.isAlpha = true) : c.toNat < 128 := by
  simp only [Char.isAlpha, Char.isUpper, Char.isLower, Bool.or_eq_true,
    Bool.and_eq_true, decide_eq_true_eq] at h
  rcases h with ⟨h1, h2⟩ | ⟨h1, h2⟩ <;>
    · have h3 := by simpa [UInt32.le_def, BitVec.le_def] using h2
      simp only [Char.toNat, UInt32.toNat]
      omega

/-- Digit characters are the code points 48-57. -/
theorem char_isDigit_bounds (c : Char) (h : c.isDigit = true) :
    48 ≤ c.toNat ∧ c.toNat ≤ 57 := by
  simp only [Char.isDigit, Bool.and_eq_true, decide_eq_true_eq] at h
  have h3 := by simpa [UInt32.le_def, BitVec.le_def] using h.2
  have h4 := by simpa [UInt32.le_def, BitVec.le_def] using h.1
  simp only [Char.toNat, UInt32.toNat]
  omega

/-- Characters `encodeURIComponent` passes through are ASCII and not a
percent sign. -/
theorem uriComponentUnreserved_facts (c : Char) (h : uriComponentUnreserved c = true) :
    c.toNat < 128 ∧ c ≠ '%' ∧ c ≠ '+' := by
  simp only [uriComponentUnreserved, Char.isAlphanum, Bool.or_eq_true,
    decide_eq_true_eq, or_assoc] at h
  rcases h with ha | hd | h | h | h | h | h | h | h | h | h
  · refine ⟨char_isAlpha_lt c ha, ?_, ?_⟩ <;>
      (intro hEq; subst hEq; exact absurd ha (by decide))
  · have := char_isDigit_bounds c hd
    refine ⟨by omega, ?_, ?_⟩ <;>
      (intro hEq; subst hEq; exact absurd hd (by decide))
  all_goals subst h
  all_goals exact ⟨by decide, by decide, by decide⟩

/-- Characters the legacy `escape` passes through are ASCII and not a
percent sign. -/
theorem escapeUnreserved_facts (c : Char) (h : escapeUnreserved c = true) :
    c.toNat < 128 ∧ c ≠ '%' := by
  simp only [escapeUnreserved, Char.isAlphanum, Bool.or_eq_true,
    decide_eq_true_eq, or_assoc] at h
  rcases h with ha | hd | h | h | h | h | h | h | h
  · refine ⟨char_isAlpha_lt c ha, ?_⟩
    intro hEq
    subst hEq
    exact absurd ha (by decide)
  · have := char_isDigit_bounds c hd
    refine ⟨by omega, ?_⟩
    intro hEq
    subst hEq
    exact absurd hd (by decide)
  all_goals subst h
  all_goals exact ⟨by decide, by decide⟩

/-- An ASCII character's UTF-8 encoding is its own code point. -/
theorem utf8EncodeChar_ascii (c : Char) (h : c.toNat < 128) :
    utf8EncodeChar c = [c.toNat] := by
  simp [utf8EncodeChar, utf8EncodeNat, h]

/-- Percent-decoding one `%XX` escape off the front. -/
theorem percentBytes_byteHex (b : Nat) (hb : b < 256) (rest : List Char) :
    percentBytes (byteHex b ++ rest) = (b :: ·) <$> percentBytes rest := by
  simp only [byteHex, List.cons_append, List.nil_append]
  rw [percentBytes, if_pos rfl, percentBytesHex]
  rw [show hexPair (hexDigitUpper (b / 16)) (hexDigitUpper (b % 16)) = some b by
    simp only [hexPair, hexCharVal_upper _ (by omega : b / 16 < 16),
      hexCharVal_upper _ (by omega : b % 16 < 16), Option.bind_eq_bind,
      Option.some_bind]
    congr 1
    omega]
  cases percentBytes rest <;> rfl

/-- Percent-decoding a run of `%XX` escapes off the front. -/
theorem percentBytes_flatMap_byteHex (bs : List Nat) (hb : ∀ b ∈ bs, b < 256)
    (rest : List Char) :
    percentBytes (bs.flatMap byteHex ++ rest) = (bs ++ ·) <$> percentBytes rest := by
  induction bs with
  | nil =>
    simp only [List.flatMap_nil, List.nil_append]
    cases percentBytes rest <;> rfl
  | cons b t ih =>
    rw [List.flatMap_cons, List.append_assoc, percentBytes_byteHex b (hb b (by simp))]
    rw [ih (fun x hx => hb x (by simp [hx]))]
    cases percentBytes rest <;> rfl

/-- Percent-decoding a literal (non-`%`) character off the front. -/
theorem percentBytes_literal (c : Char) (hc : c ≠ '%') (rest : List Char) :
    percentBytes (c :: rest) = (utf8EncodeChar c ++ ·) <$> percentBytes rest := by
  rw [percentBytes, if_neg hc]

/-- Percent-decoding the output of `encodeURIComponent` recovers exactly
the UTF-8 bytes of the input. -/
theorem percentBytes_encodeURIComponent (s : List Char) :
    percentBytes (encodeURIComponentFn s) = some (utf8Encode s) := by
  induction s with
  | nil => simp [encodeURIComponentFn, percentBytes, utf8Encode]
  | cons c t ih =>
    rw [encodeURIComponentFn, List.flatMap_cons, ← encodeURIComponentFn]
    by_cases h : uriComponentUnreserved c = true
    · rw [if_pos h, List.singleton_append,
        percentBytes_literal c (uriComponentUnreserved_facts c h).2.1, ih]
      rfl
    · rw [if_neg h, percentBytes_flatMap_byteHex (utf8EncodeChar c)
        (by rw [utf8EncodeChar]; exact utf8EncodeNat_lt_256 c.toNat (char_toNat_lt c)) _,
        ih]
      rfl

/-- `decodeURIComponent` inverts `encodeURIComponent`. -/
theorem decodeURIComponent_encodeURIComponent (s : List Char) :
    decodeURIComponentFn (encodeURIComponentFn s) = some s := by
  rw [decodeURIComponentFn, percentBytes_encodeURIComponent]
  simpa using utf8Decode_encode s

/-- `decodeURIComponent` is the identity on ASCII text without percent
signs. -/
theorem decodeURIComponent_ascii (s : List Char)
    (h : ∀ c ∈ s, c.toNat < 128 ∧ c ≠ '%') :
    decodeURIComponentFn s = some s := by
  have hp : percentBytes s = some (utf8Encode s) := by
    induction s with
    | nil => simp [percentBytes, utf8Encode]
    | cons c t ih =>
      rw [percentBytes_literal c (h c (by simp)).2, ih (fun x hx => h x (by simp [hx]))]
      rfl
  rw [decodeURIComponentFn, hp]
  simpa using utf8Decode_encode s

/-- Hex digit characters are never `u`. -/
theorem hexDigitUpper_ne_u (n : Nat) (h : n < 16) : hexDigitUpper n ≠ 'u' := by
  interval_cases n <;> decide

/-- Hex digit characters are never `%`. -/
theorem hexDigitUpper_ne_pct (n : Nat) (h : n < 16) : hexDigitUpper n ≠ '%' := by
  interval_cases n <;> decide

/-- Hex digit characters are ASCII. -/
theorem hexDigitUpper_ascii (n : Nat) (h : n < 16) : (hexDigitUpper n).toNat < 128 := by
  interval_cases n <;> decide

/-- `unescape` turns one `%XX` escape into its Latin-1 code unit. -/
theorem unescapeFn_byteHex (b : Nat) (hb : b < 256) (rest : List Char) :
    unescapeFn (byteHex b ++ rest) = Char.ofNat b :: unescapeFn rest := by
  simp only [byteHex, List.cons_append, List.nil_append]
  rw [unescapeFn]
  · rw [show hexPair (hexDigitUpper (b / 16)) (hexDigitUpper (b % 16)) = some b by
      simp only [hexPair, hexCharVal_upper _ (by omega : b / 16 < 16),
        hexCharVal_upper _ (by omega : b % 16 < 16), Option.bind_eq_bind,
        Option.some_bind]
      congr 1
      omega]
  · intro c2 c3 c4 r hu hr
    exact absurd hu (hexDigitUpper_ne_u (b / 16) (by omega))

/-- `unescape` keeps a literal non-`%` character. -/
theorem unescapeFn_literal (c : Char) (hc : c ≠ '%') (rest : List Char) :
    unescapeFn (c :: rest) = c :: unescapeFn rest := by
  rw [unescapeFn]
  · intro c1 c2 c3 c4 r hpc hr
    exact absurd hpc hc
  · intro c1 c2 r hpc hr
    exact absurd hpc hc

/-- `unescape` over a run of `%XX` escapes. -/
theorem unescapeFn_byteHex_run (bs : List Nat) (hb : ∀ b ∈ bs, b < 256)
    (rest : List Char) :
    unescapeFn (bs.flatMap byteHex ++ rest) = bs.map Char.ofNat ++ unescapeFn rest := by
  induction bs with
  | nil => simp
  | cons b t ih =>
    rw [List.flatMap_cons, List.append_assoc, unescapeFn_byteHex b (hb b (by simp))]
    rw [List.map_cons, List.cons_append]
    congr 1
    exact ih (fun x hx => hb x (by simp [hx]))

/-- `unescape (encodeURIComponent s)` is the classic UTF-8-encode idiom:
it returns the UTF-8 bytes of `s` as Latin-1 code units. -/
theorem unescapeFn_encodeURIComponent (s : List Char) :
    unescapeFn (encodeURIComponentFn s) = (utf8Encode s).map Char.ofNat := by
  induction s with
  | nil => simp [encodeURIComponentFn, unescapeFn, utf8Encode]
  | cons c t ih =>
    rw [encodeURIComponentFn, List.flatMap_cons, ← encodeURIComponentFn]
    by_cases h : uriComponentUnreserved c = true
    · obtain ⟨hascii, hpct, -⟩ := uriComponentUnreserved_facts c h
      rw [if_pos h, List.singleton_append, unescapeFn_literal c hpct, ih]
      simp [utf8Encode, utf8EncodeChar_ascii c hascii]
    · rw [if_neg h, unescapeFn_byteHex_run (utf8EncodeChar c)
        (by rw [utf8EncodeChar]; exact utf8EncodeNat_lt_256 c.toNat (char_toNat_lt c)) _,
        ih]
      simp [utf8Encode]

/-- A Latin-1 code unit survives the round trip through `Char.ofNat`. -/
theorem toNat_charOfNat_latin1 (b : Nat) (hb : b < 256) :
    (Char.ofNat b).toNat = b :=
  toNat_charOfNat b (by omega)

/-- Percent-decoding the `escape` of a Latin-1 string yields exactly its
code units. -/
theorem percentBytes_escapeFn_latin1 (bs : List Nat) (hb : ∀ b ∈ bs, b < 256) :
    percentBytes (escapeFn (bs.map Char.ofNat)) = some bs := by
  induction bs with
  | nil => simp [escapeFn, percentBytes]
  | cons b t ih =>
    have hblt : b < 256 := hb b (by simp)
    have htn : (Char.ofNat b).toNat = b := toNat_charOfNat_latin1 b hblt
    rw [List.map_cons, escapeFn, List.flatMap_cons, ← escapeFn]
    by_cases h : escapeUnreserved (Char.ofNat b) = true
    · obtain ⟨hascii, hpct⟩ := escapeUnreserved_facts _ h
      rw [if_pos h, List.singleton_append, percentBytes_literal _ hpct,
        ih (fun x hx => hb x (by simp [hx]))]
      rw [utf8EncodeChar_ascii _ hascii, htn]
      rfl
    · rw [if_neg h, if_pos (by omega : (Char.ofNat b).toNat < 256), htn,
        percentBytes_byteHex b hblt, ih (fun x hx => hb x (by simp [hx]))]
      rfl

/-- `decodeURIComponent (escape -)` is the classic UTF-8-decode idiom:
applied to the Latin-1 string of the UTF-8 bytes of `s` it returns `s`. -/
theorem decodeURIComponent_escapeFn_utf8 (s : List Char) :
    decodeURIComponentFn (escapeFn ((utf8Encode s).map Char.ofNat)) = some s := by
  rw [decodeURIComponentFn, percentBytes_escapeFn_latin1 (utf8Encode s)
    (fun b hbm => by
      rcases List.mem_flatMap.mp hbm with ⟨c, -, hc⟩
      exact utf8EncodeNat_lt_256 c.toNat (char_toNat_lt c) b hc)]
  simpa using utf8Decode_encode s

/-- `encodeURIComponent` output never contains a literal plus sign. -/
theorem hexDigitUpper_ne_plus (n : Nat) (h : n < 16) : hexDigitUpper n ≠ '+' := by
  interval_cases n <;> decide

/-- `encodeURIComponent` output never contains a literal plus sign
(a `+` in the data is emitted as `%2B`). -/
theorem encodeURIComponent_no_plus (s : List Char) :
    ∀ c ∈ encodeURIComponentFn s, c ≠ '+' := by
  intro c hc
  rw [encodeURIComponentFn] at hc
  rcases List.mem_flatMap.mp hc with ⟨x, hxmem, hmem⟩
  by_cases h : uriComponentUnreserved x = true
  · rw [if_pos h] at hmem
    have hcx : c = x := List.mem_singleton.mp hmem
    subst hcx
    exact (uriComponentUnreserved_facts _ h).2.2
  · rw [if_neg h] at hmem
    rcases List.mem_flatMap.mp hmem with ⟨b, hbm, hbh⟩
    have hblt : b < 256 :=
      utf8EncodeNat_lt_256 x.toNat (char_toNat_lt x) b (by simpa [utf8EncodeChar] using hbm)
    simp only [byteHex, List.mem_cons, List.mem_singleton, List.not_mem_nil,
      or_false] at hbh
    rcases hbh with rfl | rfl | rfl
    · decide
    · exact hexDigitUpper_ne_plus (b / 16) (by omega)
    · exact hexDigitUpper_ne_plus (b % 16) (by omega)

/-- `URLSearchParams` value decoding inverts `encodeURIComponent`. -/
theorem urlParamDecode_encodeURIComponent (s : List Char) :
    urlParamDecode (encodeURIComponentFn s) = some s := by
  rw [urlParamDecode]
  have hmap : ((encodeURIComponentFn s).map fun c => if c = '+' then ' ' else c) =
      encodeURIComponentFn s := by
    rw [show encodeURIComponentFn s =
        (encodeURIComponentFn s).map id from (List.map_id _).symm]
    rw [List.map_map]
    exact List.map_congr_left fun a ha => by
      simp [encodeURIComponent_no_plus s a (by simpa using ha)]
  rw [hmap]
  exact decodeURIComponent_encodeURIComponent s

/-- Decimal digit characters have their value 48 below the code point. -/
theorem digitChar_toNat (d : Nat) (h : d < 10) : (Nat.digitChar d).toNat - 48 = d := by
  interval_cases d <;> decide

/-- Decimal digit characters satisfy `isDigit`. -/
theorem digitChar_isDigit (d : Nat) (h : d < 10) : (Nat.digitChar d).isDigit = true := by
  interval_cases d <;> decide

/-- The digit-accumulating fold, with the accumulator made explicit. -/
theorem digitsVal_foldl (l : List Char) (acc : Nat) :
    l.foldl (fun a c => a * 10 + (c.toNat - 48)) acc =
      acc * 10 ^ l.length + digitsVal l := by
  induction l generalizing acc with
  | nil => simp [digitsVal]
  | cons c t ih =>
    rw [List.foldl_cons, ih]
    rw [show digitsVal (c :: t) = (c.toNat - 48) * 10 ^ t.length + digitsVal t by
      rw [show digitsVal (c :: t) =
        t.foldl (fun a x => a * 10 + (x.toNat - 48)) (0 * 10 + (c.toNat - 48)) from rfl]
      rw [show (0 : Nat) * 10 + (c.toNat - 48) = c.toNat - 48 by omega]
      exact ih _]
    rw [List.length_cons, pow_succ]
    ring

/-- The value of a digit string with one digit appended. -/
theorem digitsVal_append_single (l : List Char) (c : Char) :
    digitsVal (l ++ [c]) = digitsVal l * 10 + (c.toNat - 48) := by
  simp [digitsVal, List.foldl_append]

/-- Reading back a little-endian digit list rendered big-endian. -/
theorem digitsVal_reverse_map (ds : List Nat) (h : ∀ d ∈ ds, d < 10) :
    digitsVal (ds.reverse.map Nat.digitChar) = Nat.ofDigits 10 ds := by
  induction ds with
  | nil => simp [digitsVal]
  | cons d t ih =>
    rw [List.reverse_cons, List.map_append, List.map_singleton,
      digitsVal_append_single, ih (fun x hx => h x (by simp [hx])),
      digitChar_toNat d (h d (by simp)), Nat.ofDigits_cons]
    ring

/-- `rawDigits` reads back to its number. -/
theorem digitsVal_rawDigits (m : Nat) : digitsVal (rawDigits m) = m := by
  rw [rawDigits, digitsVal_reverse_map _ (fun d hd => Nat.digits_lt_base (by norm_num) hd)]
  exact Nat.ofDigits_digits 10 m

/-- `natDigits` reads back to its number. -/
theorem digitsVal_natDigits (m : Nat) : digitsVal (natDigits m) = m := by
  rw [natDigits]
  split_ifs with h
  · subst h; decide
  · exact digitsVal_rawDigits m

/-- Every character of `rawDigits` is a digit. -/
theorem rawDigits_isDigit (m : Nat) : ∀ c ∈ rawDigits m, c.isDigit = true := by
  intro c hc
  rw [rawDigits] at hc
  rcases List.mem_map.mp hc with ⟨d, hd, rfl⟩
  exact digitChar_isDigit d (Nat.digits_lt_base (by norm_num) (List.mem_reverse.mp hd))

/-- Every character of `natDigits` is a digit. -/
theorem natDigits_isDigit (m : Nat) : ∀ c ∈ natDigits m, c.isDigit = true := by
  intro c hc
  rw [natDigits] at hc
  split_ifs at hc with h
  · rcases List.mem_singleton.mp hc with rfl; decide
  · exact rawDigits_isDigit m c hc

/-- `natDigits` is never empty. -/
theorem natDigits_ne_nil (m : Nat) : natDigits m ≠ [] := by
  rw [natDigits]
  split_ifs with h
  · simp
  · rw [rawDigits]
    simp [Nat.digits_ne_nil_iff_ne_zero, h]

/-- The number of decimal digits of `m < 10 ^ e` is at most `e`. -/
theorem rawDigits_length_le (m e : Nat) (h : m < 10 ^ e) :
    (rawDigits m).length ≤ e := by
  rw [rawDigits, List.length_map, List.length_reverse]
  rcases Nat.eq_zero_or_pos m with h0 | h0
  · subst h0; simp
  · rw [Nat.digits_len 10 m (by norm_num) h0.ne']
    have := Nat.log_lt_of_lt_pow h0.ne' h
    omega

/-- Leading zeros do not change a digit string's value. -/
theorem digitsVal_replicate_zero (k : Nat) (l : List Char) :
    digitsVal (List.replicate k '0' ++ l) = digitsVal l := by
  induction k with
  | zero => simp
  | succ n ih =>
    rw [List.replicate_succ, List.cons_append, digitsVal, List.foldl_cons]
    simpa [digitsVal] using ih

/-- The padded fraction block has exactly `e` digits. -/
theorem padDigits_length (e m : Nat) (h : m < 10 ^ e) :
    (padDigits e m).length = e := by
  rw [padDigits, List.length_append, List.length_replicate]
  have := rawDigits_length_le m e h
  omega

/-- The padded fraction block reads back to its number. -/
theorem digitsVal_padDigits (e m : Nat) : digitsVal (padDigits e m) = m := by
  rw [padDigits, digitsVal_replicate_zero, digitsVal_rawDigits]

/-- Every character of the padded fraction block is a digit. -/
theorem padDigits_isDigit (e m : Nat) : ∀ c ∈ padDigits e m, c.isDigit = true := by
  intro c hc
  rw [padDigits] at hc
  rcases List.mem_append.mp hc with hc | hc
  · rcases List.eq_of_mem_replicate hc with rfl; decide
  · exact rawDigits_isDigit m c hc

/-- `takeWhile isDigit` over an all-digit prefix followed by a non-digit
(or nothing). -/
theorem takeWhile_digit_split (ds rest : List Char)
    (hds : ∀ c ∈ ds, c.isDigit = true)
    (hr : ∀ c ∈ rest.take 1, c.isDigit = false) :
    (ds ++ rest).takeWhile Char.isDigit = ds ∧
    (ds ++ rest).drop ds.length = rest := by
  constructor
  · induction ds with
    | nil =>
      cases rest with
      | nil => rfl
      | cons c t => simp [List.takeWhile_cons, hr c (by simp)]
    | cons c t ih =>
      rw [List.cons_append, List.takeWhile_cons, hds c (by simp)]
      simp only [ite_true, if_true]
      rw [ih (fun x hx => hds x (by simp [hx]))]
  · simp

/-- `parseDigitRun` on a rendered digit block. -/
theorem parseDigitRun_digits (ds rest : List Char) (hne : ds ≠ [])
    (hds : ∀ c ∈ ds, c.isDigit = true)
    (hr : ∀ c ∈ rest.take 1, c.isDigit = false) :
    parseDigitRun (ds ++ rest) = some (digitsVal ds, ds.length, rest) := by
  obtain ⟨ht, hd⟩ := takeWhile_digit_split ds rest hds hr
  rw [parseDigitRun]
  simp only [ht, hd]
  rw [if_neg (by simpa using hne)]


/-- Rendering a nonnegative integer `JNum`. -/
theorem stringifyJNum_nonneg_zero (a : Nat) :
    stringifyJNum ⟨Int.ofNat a, 0⟩ = natDigits a := by
  simp [stringifyJNum]

/-- Rendering a nonnegative fractional `JNum`. -/
theorem stringifyJNum_nonneg_pos (a e : Nat) (he : e ≠ 0) :
    stringifyJNum ⟨Int.ofNat a, e⟩ =
      natDigits (a / 10 ^ e) ++ '.' :: padDigits e (a % 10 ^ e) := by
  simp [stringifyJNum, he]

/-- Rendering a negative `JNum` is a minus sign before the rendering of
its absolute value. -/
theorem stringifyJNum_neg (m : Int) (e : Nat) (hm : m < 0) :
    stringifyJNum ⟨m, e⟩ = '-' :: stringifyJNum ⟨Int.ofNat m.natAbs, e⟩ := by
  rcases Nat.eq_zero_or_pos e with he | he
  · subst he
    rw [stringifyJNum_nonneg_zero]
    simp [stringifyJNum, hm, not_lt.mpr (Int.ofNat_nonneg m.natAbs)]
  · rw [stringifyJNum_nonneg_pos _ _ he.ne']
    simp only [stringifyJNum, Int.natAbs_ofNat]
    rw [if_pos hm, if_neg he.ne']
    rfl

/-- The heads of delimiter text are not digits and not a dot. -/
theorem jsonDelim_head (rest : List Char) (hd : jsonDelim rest = true) :
    (∀ c ∈ rest.take 1, c.isDigit = false) ∧ (∀ c ∈ rest.take 1, c ≠ '.') := by
  constructor <;>
    · intro c hc
      cases rest with
      | nil => simp at hc
      | cons r t =>
        simp only [List.take_succ_cons, List.take_zero, List.mem_singleton] at hc
        subst hc
        simp only [jsonDelim, Bool.or_eq_true, decide_eq_true_eq, or_assoc] at hd
        rcases hd with rfl | rfl | rfl <;> decide

/-- The core number parser on a rendered nonnegative integer. -/
theorem parseJNumCore_int (a : Nat) (rest : List Char) (hd : jsonDelim rest = true) :
    parseJNumCore (natDigits a ++ rest) = some (⟨Int.ofNat a, 0⟩, rest) := by
  obtain ⟨h1, hdot⟩ := jsonDelim_head rest hd
  rw [parseJNumCore]
  rw [parseDigitRun_digits (natDigits a) rest (natDigits_ne_nil a)
    (natDigits_isDigit a) h1]
  simp only [Option.bind_eq_bind, Option.some_bind, digitsVal_natDigits]
  split
  · next r2 => exact absurd rfl (hdot '.' (by simp))
  · rfl

/-- The core number parser on a rendered nonnegative decimal fraction. -/
theorem parseJNumCore_frac (i f e : Nat) (hf : f < 10 ^ e) (he : e ≠ 0)
    (rest : List Char) (hd : jsonDelim rest = true) :
    parseJNumCore (natDigits i ++ '.' :: (padDigits e f ++ rest)) =
      some (⟨Int.ofNat (i * 10 ^ e + f), e⟩, rest) := by
  obtain ⟨h1, hdot⟩ := jsonDelim_head rest hd
  rw [parseJNumCore]
  rw [show natDigits i ++ '.' :: (padDigits e f ++ rest) =
    natDigits i ++ ('.' :: (padDigits e f ++ rest)) from rfl]
  rw [parseDigitRun_digits (natDigits i) ('.' :: (padDigits e f ++ rest))
    (natDigits_ne_nil i) (natDigits_isDigit i) (by intro c hc; simp at hc; subst hc; rfl)]
  simp only [Option.bind_eq_bind, Option.some_bind, digitsVal_natDigits]
  rw [parseDigitRun_digits (padDigits e f) rest
    (by
      intro hnil
      have := padDigits_length e f hf
      rw [hnil] at this
      simp at this
      exact he this.symm)
    (padDigits_isDigit e f) h1]
  simp only [Option.bind_eq_bind, Option.some_bind, digitsVal_padDigits,
    padDigits_length e f hf]
  rfl

/-- A rendered `JNum` followed by a delimiter parses back to itself. -/
theorem parseJNum_stringify (n : JNum) (rest : List Char)
    (hd : jsonDelim rest = true) :
    parseJNum (stringifyJNum n ++ rest) = some (n, rest) := by
  obtain ⟨m, e⟩ := n
  rcases Int.lt_or_le m 0 with hm | hm
  · rw [stringifyJNum_neg m e hm, List.cons_append]
    have hne : ∀ l, parseJNum ('-' :: l) =
        (fun p => (⟨-p.1.mantissa, p.1.fracDigits⟩, p.2)) <$> parseJNumCore l :=
      fun l => rfl
    rw [hne]
    rcases Nat.eq_zero_or_pos e with he | he
    · subst he
      rw [stringifyJNum_nonneg_zero, parseJNumCore_int _ _ hd]
      simp only [Option.map_some]
      rw [show -Int.ofNat m.natAbs = m by simp only [Int.ofNat_eq_coe]; omega]
    · rw [stringifyJNum_nonneg_pos _ _ he.ne', List.append_assoc, List.cons_append]
      rw [parseJNumCore_frac _ _ _ (Nat.mod_lt _ (by positivity)) he.ne' _ hd]
      simp only [Option.map_some]
      have hdm : m.natAbs / 10 ^ e * 10 ^ e + m.natAbs % 10 ^ e = m.natAbs :=
        Nat.div_add_mod' _ _
      rw [hdm, show -Int.ofNat m.natAbs = m by simp only [Int.ofNat_eq_coe]; omega]
  · have ha : m = Int.ofNat m.natAbs := by simp only [Int.ofNat_eq_coe]; omega
    rw [ha]
    have hparse : parseJNum (stringifyJNum ⟨Int.ofNat m.natAbs, e⟩ ++ rest) =
        parseJNumCore (stringifyJNum ⟨Int.ofNat m.natAbs, e⟩ ++ rest) := by
      rcases Nat.eq_zero_or_pos e with he | he
      · subst he
        rw [stringifyJNum_nonneg_zero]
        rcases hnd : natDigits m.natAbs with _ | ⟨c, t⟩
        · exact absurd hnd (natDigits_ne_nil _)
        · have hdig : c.isDigit = true := natDigits_isDigit _ c (by rw [hnd]; simp)
          rw [List.cons_append, parseJNum]
          intro r hEq
          injection hEq with h1 h2
          subst h1
          simp at hdig
      · rw [stringifyJNum_nonneg_pos _ _ he.ne']
        rcases hnd : natDigits (m.natAbs / 10 ^ e) with _ | ⟨c, t⟩
        · exact absurd hnd (natDigits_ne_nil _)
        · have hdig : c.isDigit = true := natDigits_isDigit _ c (by rw [hnd]; simp)
          rw [List.cons_append, List.cons_append, parseJNum]
          intro r hEq
          injection hEq with h1 h2
          subst h1
          simp at hdig
    rw [hparse]
    rcases Nat.eq_zero_or_pos e with he | he
    · subst he
      rw [stringifyJNum_nonneg_zero, parseJNumCore_int _ _ hd]
    · rw [stringifyJNum_nonneg_pos _ _ he.ne', List.append_assoc, List.cons_append]
      rw [parseJNumCore_frac _ _ _ (Nat.mod_lt _ (by positivity)) he.ne' _ hd]
      rw [Nat.div_add_mod' _ _]


/-- Reading back one escaped JSON string character. -/
theorem parseJStrAux_chunk (c : Char) (rest : List Char) :
    parseJStrAux (jstrEscapeChar c ++ rest) =
      (fun p => (c :: p.1, p.2)) <$> parseJStrAux rest := by
  by_cases h1 : c = '"'
  · subst h1
    rw [show jstrEscapeChar '"' = ['\\', '"'] from rfl]
    rw [List.cons_append, List.cons_append, List.nil_append, parseJStrAux]
    · rw [if_pos (Or.inl rfl)]
    · intro c1 c2 c3 c4 r hu hEq
      exact absurd hu (by decide)
  · by_cases h2 : c = '\\'
    · subst h2
      rw [show jstrEscapeChar '\\' = ['\\', '\\'] from rfl]
      rw [List.cons_append, List.cons_append, List.nil_append, parseJStrAux]
      · rw [if_pos (Or.inr (Or.inl rfl))]
      · intro c1 c2 c3 c4 r hu hEq
        exact absurd hu (by decide)
    · by_cases h3 : c.toNat = 8
      · rw [show jstrEscapeChar c = ['\\', 'b'] by simp [jstrEscapeChar, h1, h2, h3]]
        rw [List.cons_append, List.cons_append, List.nil_append, parseJStrAux]
        · rw [if_neg (by decide), if_pos rfl]
          rw [show Char.ofNat 8 = c from h3 ▸ Char.ofNat_toNat c]
        · intro c1 c2 c3 c4 r hu hEq
          exact absurd hu (by decide)
      · by_cases h4 : c.toNat = 9
        · rw [show jstrEscapeChar c = ['\\', 't'] by
            simp [jstrEscapeChar, h1, h2, h3, h4]]
          rw [List.cons_append, List.cons_append, List.nil_append, parseJStrAux]
          · rw [if_neg (by decide), if_neg (by decide), if_pos rfl]
            rw [show Char.ofNat 9 = c from h4 ▸ Char.ofNat_toNat c]
          · intro c1 c2 c3 c4 r hu hEq
            exact absurd hu (by decide)
        · by_cases h5 : c.toNat = 10
          · rw [show jstrEscapeChar c = ['\\', 'n'] by
              simp [jstrEscapeChar, h1, h2, h3, h4, h5]]
            rw [List.cons_append, List.cons_append, List.nil_append, parseJStrAux]
            · rw [if_neg (by decide), if_neg (by decide), if_neg (by decide),
                if_pos rfl]
              rw [show Char.ofNat 10 = c from h5 ▸ Char.ofNat_toNat c]
            · intro c1 c2 c3 c4 r hu hEq
              exact absurd hu (by decide)
          · by_cases h6 : c.toNat = 12
            · rw [show jstrEscapeChar c = ['\\', 'f'] by
                simp [jstrEscapeChar, h1, h2, h3, h4, h5, h6]]
              rw [List.cons_append, List.cons_append, List.nil_append, parseJStrAux]
              · rw [if_neg (by decide), if_neg (by decide), if_neg (by decide),
                  if_neg (by decide), if_pos rfl]
                rw [show Char.ofNat 12 = c from h6 ▸ Char.ofNat_toNat c]
              · intro c1 c2 c3 c4 r hu hEq
                exact absurd hu (by decide)
            · by_cases h7 : c.toNat = 13
              · rw [show jstrEscapeChar c = ['\\', 'r'] by
                  simp [jstrEscapeChar, h1, h2, h3, h4, h5, h6, h7]]
                rw [List.cons_append, List.cons_append, List.nil_append,
                  parseJStrAux]
                · rw [if_neg (by decide), if_neg (by decide), if_neg (by decide),
                    if_neg (by decide), if_neg (by decide), if_pos rfl]
                  rw [show Char.ofNat 13 = c from h7 ▸ Char.ofNat_toNat c]
                · intro c1 c2 c3 c4 r hu hEq
                  exact absurd hu (by decide)
              · by_cases h8 : c.toNat < 32
                · rw [show jstrEscapeChar c = ['\\', 'u', '0', '0',
                      hexDigitLower (c.toNat / 16), hexDigitLower (c.toNat % 16)] by
                    simp [jstrEscapeChar, h1, h2, h3, h4, h5, h6, h7, h8]]
                  have hq : hexQuad '0' '0' (hexDigitLower (c.toNat / 16))
                      (hexDigitLower (c.toNat % 16)) = some c.toNat := by
                    simp only [hexQuad, show hexCharVal '0' = some 0 from rfl,
                      hexCharVal_lower _ (by omega : c.toNat / 16 < 16),
                      hexCharVal_lower _ (by omega : c.toNat % 16 < 16),
                      Option.bind_eq_bind, Option.some_bind, Option.pure_def,
                      Option.some.injEq]
                    omega
                  simp only [List.cons_append, List.nil_append]
                  rw [parseJStrAux, hq]
                  show (fun p => (Char.ofNat c.toNat :: p.1, p.2)) <$>
                    parseJStrAux rest = _
                  rw [Char.ofNat_toNat]
                · rw [show jstrEscapeChar c = [c] by
                    simp [jstrEscapeChar, h1, h2, h3, h4, h5, h6, h7, h8]]
                  rw [List.singleton_append, parseJStrAux]
                  · intro hq
                    exact absurd hq h1
                  · intro c1 c2 c3 c4 r hc hEq
                    exact absurd hc h2
                  · intro e r hc hEq
                    exact absurd hc h2

/-- A rendered JSON string body parses back to the original characters. -/
theorem parseJStrAux_escape (l : List Char) (rest : List Char) :
    parseJStrAux (l.flatMap jstrEscapeChar ++ '"' :: rest) = some (l, rest) := by
  induction l with
  | nil =>
    rw [List.flatMap_nil, List.nil_append, parseJStrAux]
  | cons c t ih =>
    rw [List.flatMap_cons, List.append_assoc, parseJStrAux_chunk, ih]
    rfl

/-- `skipWs` does not strip a non-whitespace head. -/
theorem skipWs_cons (c : Char) (l : List Char) (h : jsonWs c = false) :
    skipWs (c :: l) = c :: l := by
  simp [skipWs, List.dropWhile_cons, h]

/-- The head of a rendered JSON number is a minus sign or a digit. -/
theorem stringifyJNum_head (n : JNum) :
    ∃ c t, stringifyJNum n = c :: t ∧ (c = '-' ∨ c.isDigit = true) := by
  obtain ⟨m, e⟩ := n
  rcases Int.lt_or_le m 0 with hm | hm
  · exact ⟨'-', _, stringifyJNum_neg m e hm, Or.inl rfl⟩
  · have ha : m = Int.ofNat m.natAbs := by simp only [Int.ofNat_eq_coe]; omega
    rcases Nat.eq_zero_or_pos e with he | he
    · subst he
      rw [ha, stringifyJNum_nonneg_zero]
      rcases hnd : natDigits m.natAbs with _ | ⟨c, t⟩
      · exact absurd hnd (natDigits_ne_nil _)
      · exact ⟨c, t, rfl, Or.inr (natDigits_isDigit _ c (by rw [hnd]; simp))⟩
    · rw [ha, stringifyJNum_nonneg_pos _ _ he.ne']
      rcases hnd : natDigits (m.natAbs / 10 ^ e) with _ | ⟨c, t⟩
      · exact absurd hnd (natDigits_ne_nil _)
      · exact ⟨c, t ++ '.' :: padDigits e (m.natAbs % 10 ^ e),
          by rw [List.cons_append],
          Or.inr (natDigits_isDigit _ c (by rw [hnd]; simp))⟩

/-- A minus or digit character is not JSON whitespace. -/
theorem numHead_notWs (c : Char) (h : c = '-' ∨ c.isDigit = true) :
    jsonWs c = false := by
  rcases h with rfl | h
  · decide
  · obtain ⟨h1, h2⟩ := char_isDigit_bounds c h
    simp only [jsonWs, Bool.or_eq_false_iff, decide_eq_false_iff_not]
    refine ⟨⟨⟨?_, ?_⟩, ?_⟩, ?_⟩ <;> (rintro rfl; exact absurd h1 (by decide))

/-- A minus or digit character starts none of the keyword, string, array
or object arms of the parser. -/
theorem numHead_ne (c : Char) (h : c = '-' ∨ c.isDigit = true) :
    c ≠ 'n' ∧ c ≠ 't' ∧ c ≠ 'f' ∧ c ≠ '"' ∧ c ≠ '[' ∧ c ≠ '{' := by
  rcases h with rfl | h
  · decide
  · obtain ⟨h1, h2⟩ := char_isDigit_bounds c h
    refine ⟨?_, ?_, ?_, ?_, ?_, ?_⟩ <;>
      (rintro rfl; first
        | exact absurd h1 (by decide)
        | exact absurd h2 (by decide))

/-- Rebuilding a list of characters into a string is the identity. -/
theorem string_mk_toList (s : String) : String.mk s.toList = s := rfl

/-- Folding property assignments over fresh keys appends the members. -/
theorem foldl_jsObjSet (ms : List (String × JVal)) :
    ∀ acc : List (String × JVal),
    (∀ p ∈ ms, ∀ q ∈ acc, q.1 ≠ p.1) → (ms.map Prod.fst).Nodup →
    ms.foldl (fun o p => jsObjSet o p.1 p.2) acc = acc ++ ms := by
  induction ms with
  | nil => intro acc _ _; simp
  | cons p t ih =>
    intro acc hdisj hnd
    rw [List.foldl_cons]
    have hset : jsObjSet acc p.1 p.2 = acc ++ [p] := by
      rw [jsObjSet, if_neg]
      simp only [List.any_eq_true, decide_eq_true_eq, not_exists, not_and]
      intro q hq
      exact hdisj p (by simp) q hq
    rw [hset, ih (acc ++ [p])]
    · simp
    · intro r hr q hq
      rcases List.mem_append.mp hq with hq | hq
      · exact hdisj r (by simp [hr]) q hq
      · rcases List.mem_singleton.mp hq with rfl
        simp only [List.map_cons, List.nodup_cons, List.mem_map] at hnd
        intro hc
        exact hnd.1 ⟨r, hr, hc.symm⟩
    · exact (List.nodup_cons.mp (by simpa using hnd)).2

/-- `JSON.parse` object construction is the identity on member lists
without duplicate keys. -/
theorem jsObjOfMembers_nodup (ms : List (String × JVal))
    (h : (ms.map Prod.fst).Nodup) : jsObjOfMembers ms = ms := by
  rw [jsObjOfMembers, foldl_jsObjSet ms [] (by simp) h, List.nil_append]

/-- `stringifyJStr` followed by more text, flattened to a cons. -/
theorem stringifyJStr_append (s : String) (r : List Char) :
    stringifyJStr s ++ r = '"' :: (s.toList.flatMap jstrEscapeChar ++ '"' :: r) := by
  simp [stringifyJStr, List.append_assoc]

/-- The rendering of a non-empty element list starts with its first
element's rendering. -/
theorem stringifyElems_cons_ex (x : JVal) (xs : List JVal) :
    ∃ u, stringifyElems (x :: xs) = stringifyJVal x ++ u ∧
      (xs = [] ∧ u = [] ∨ xs ≠ [] ∧ u = ',' :: stringifyElems xs) := by
  cases xs with
  | nil => exact ⟨[], by rw [stringifyElems, List.append_nil], Or.inl ⟨rfl, rfl⟩⟩
  | cons y ys =>
    refine ⟨',' :: stringifyElems (y :: ys), ?_, Or.inr ⟨by simp, rfl⟩⟩
    rw [stringifyElems]
    intro h
    exact absurd h (by simp)

/-- The rendering of a non-empty member list starts with the first key's
string rendering, a colon and the first value's rendering. -/
theorem stringifyMembers_cons_ex (k : String) (v : JVal)
    (ms : List (String × JVal)) :
    ∃ u, stringifyMembers ((k, v) :: ms) =
        stringifyJStr k ++ ':' :: (stringifyJVal v ++ u) ∧
      (ms = [] ∧ u = [] ∨ ms ≠ [] ∧ u = ',' :: stringifyMembers ms) := by
  cases ms with
  | nil => exact ⟨[], by rw [stringifyMembers, List.append_nil], Or.inl ⟨rfl, rfl⟩⟩
  | cons m ms' =>
    refine ⟨',' :: stringifyMembers (m :: ms'), ?_, Or.inr ⟨by simp, rfl⟩⟩
    rw [stringifyMembers]
    · simp [List.cons_append, List.append_assoc]
    · intro h
      exact absurd h (by simp)

/-- The first character of a rendered JSON value is never whitespace and
never a closing bracket. -/
theorem stringifyJVal_head (j : JVal) :
    ∃ c t, stringifyJVal j = c :: t ∧ jsonWs c = false ∧ c ≠ ']' := by
  cases j with
  | jnull => exact ⟨'n', _, by rw [stringifyJVal], by decide, by decide⟩
  | jbool b =>
    cases b with
    | true => exact ⟨'t', _, by rw [stringifyJVal], by decide, by decide⟩
    | false => exact ⟨'f', _, by rw [stringifyJVal], by decide, by decide⟩
  | jnum n =>
    obtain ⟨c, t, hct, hcd⟩ := stringifyJNum_head n
    refine ⟨c, t, by rw [stringifyJVal, hct], numHead_notWs c hcd, ?_⟩
    rcases hcd with rfl | h
    · decide
    · obtain ⟨h1, h2⟩ := char_isDigit_bounds c h
      rintro rfl
      exact absurd h2 (by decide)
  | jstr s =>
    exact ⟨'"', s.toList.flatMap jstrEscapeChar ++ ['"'],
      by rw [stringifyJVal]; rfl, by decide, by decide⟩
  | jarr xs =>
    exact ⟨'[', stringifyElems xs ++ [']'],
      by rw [stringifyJVal, List.cons_append], by decide, by decide⟩
  | jobj ms =>
    exact ⟨'{', stringifyMembers ms ++ ['}'],
      by rw [stringifyJVal, List.cons_append], by decide, by decide⟩

/-- A rendered JSON value followed by a delimiter parses back to itself:
joint statement for values, array element lists and object member lists,
by induction on the parser fuel. -/
theorem parse_stringify_all (fuel : Nat) :
    (∀ j : JVal, jvalWF j = true → (stringifyJVal j).length ≤ fuel →
      ∀ rest : List Char, jsonDelim rest = true →
      parseJVal fuel (stringifyJVal j ++ rest) = some (j, rest)) ∧
    (∀ xs : List JVal, xs ≠ [] → jvalListWF xs = true →
      (stringifyElems xs).length + 1 ≤ fuel →
      ∀ rest : List Char,
      parseElems fuel (stringifyElems xs ++ ']' :: rest) = some (xs, rest)) ∧
    (∀ ms : List (String × JVal), ms ≠ [] → jvalMembersWF ms = true →
      (stringifyMembers ms).length + 1 ≤ fuel →
      ∀ rest : List Char,
      parseMembers fuel (stringifyMembers ms ++ '}' :: rest) = some (ms, rest)) := by
  induction fuel with
  | zero =>
    refine ⟨?_, ?_, ?_⟩
    · intro j _ hlen rest _
      obtain ⟨c, t, hct, -, -⟩ := stringifyJVal_head j
      rw [hct] at hlen
      simp at hlen
    · intro xs _ _ hlen rest
      omega
    · intro ms _ _ hlen rest
      omega
  | succ fuel ih =>
    obtain ⟨ihv, ihe, ihm⟩ := ih
    refine ⟨?_, ?_, ?_⟩
    · intro j hwf hlen rest hdelim
      cases j with
      | jnull =>
        rw [stringifyJVal, parseJVal]
        rfl
      | jbool b =>
        cases b with
        | true =>
          rw [stringifyJVal, parseJVal]
          rfl
        | false =>
          rw [stringifyJVal, parseJVal]
          rfl
      | jnum n =>
        obtain ⟨c, t, hct, hcd⟩ := stringifyJNum_head n
        obtain ⟨hn2, ht2, hf2, hq2, hb2, hbr2⟩ := numHead_ne c hcd
        rw [stringifyJVal, hct, List.cons_append, parseJVal,
          skipWs_cons _ _ (numHead_notWs c hcd)]
        split
        · next r heq => injection heq with h1 _; exact absurd h1 hn2
        · next r heq => injection heq with h1 _; exact absurd h1 ht2
        · next r heq => injection heq with h1 _; exact absurd h1 hf2
        · next r heq => injection heq with h1 _; exact absurd h1 hq2
        · next r heq => injection heq with h1 _; exact absurd h1 hb2
        · next r heq => injection heq with h1 _; exact absurd h1 hbr2
        · rw [← List.cons_append, ← hct, parseJNum_stringify n rest hdelim]
          rfl
      | jstr s =>
        rw [stringifyJVal, stringifyJStr_append, parseJVal,
          skipWs_cons _ _ (by decide)]
        split
        · next r heq => injection heq with h1 _; exact absurd h1 (by decide)
        · next r heq => injection heq with h1 _; exact absurd h1 (by decide)
        · next r heq => injection heq with h1 _; exact absurd h1 (by decide)
        · next r heq =>
            injection heq with h1 h2
            subst h2
            rw [parseJStrAux_escape]
            rfl
        · next r heq => injection heq with h1 _; exact absurd h1 (by decide)
        · next r heq => injection heq with h1 _; exact absurd h1 (by decide)
        · next h1 h2 h3 h4 h5 h6 h7 => exact absurd (h5 _ rfl) not_false
      | jarr xs =>
        cases xs with
        | nil =>
          rw [stringifyJVal, stringifyElems, parseJVal]
          rfl
        | cons x xs' =>
          obtain ⟨u, hu, hucase⟩ := stringifyElems_cons_ex x xs'
          obtain ⟨c, t, hct, hcw, hcrb⟩ := stringifyJVal_head x
          have hlen' : (stringifyElems (x :: xs')).length + 1 ≤ fuel := by
            rw [stringifyJVal] at hlen
            simp [List.length_append] at hlen
            omega
          have hlwf : jvalListWF (x :: xs') = true := by
            rw [jvalWF] at hwf
            exact hwf
          have hs : stringifyJVal (.jarr (x :: xs')) ++ rest =
              '[' :: c :: (t ++ (u ++ ']' :: rest)) := by
            rw [stringifyJVal, hu, hct]
            simp [List.cons_append, List.append_assoc]
          rw [hs, parseJVal, skipWs_cons _ _ (by decide)]
          split
          · next r heq => injection heq with h1 _; exact absurd h1 (by decide)
          · next r heq => injection heq with h1 _; exact absurd h1 (by decide)
          · next r heq => injection heq with h1 _; exact absurd h1 (by decide)
          · next r heq => injection heq with h1 _; exact absurd h1 (by decide)
          · next r heq =>
              injection heq with h1 h2
              subst h2
              rw [skipWs_cons _ _ hcw]
              split
              · next r2 heq2 => injection heq2 with h1 _; exact absurd h1 hcrb
              · rw [show c :: (t ++ (u ++ ']' :: rest)) =
                    stringifyElems (x :: xs') ++ ']' :: rest by
                  rw [hu, hct]
                  simp [List.cons_append, List.append_assoc]]
                rw [ihe (x :: xs') (by simp) hlwf hlen' rest]
                rfl
          · next r heq => injection heq with h1 _; exact absurd h1 (by decide)
          · next h1 h2 h3 h4 h5 h6 h7 => exact absurd (h6 _ rfl) not_false
      | jobj ms =>
        cases ms with
        | nil =>
          rw [stringifyJVal, stringifyMembers, parseJVal]
          rfl
        | cons p ms' =>
          obtain ⟨k, v⟩ := p
          obtain ⟨u, hu, hucase⟩ := stringifyMembers_cons_ex k v ms'
          have hlen' : (stringifyMembers ((k, v) :: ms')).length + 1 ≤ fuel := by
            rw [stringifyJVal] at hlen
            simp [List.length_append] at hlen
            omega
          rw [jvalWF, Bool.and_eq_true] at hwf
          obtain ⟨hnd, hmwf⟩ := hwf
          have hnd' : (((k, v) :: ms').map Prod.fst).Nodup := of_decide_eq_true hnd
          have hww : ∃ w, stringifyMembers ((k, v) :: ms') = '"' :: w := by
            rw [hu, stringifyJStr_append]
            exact ⟨_, rfl⟩
          obtain ⟨w, hw⟩ := hww
          have hs : stringifyJVal (.jobj ((k, v) :: ms')) ++ rest =
              '{' :: '"' :: (w ++ '}' :: rest) := by
            rw [stringifyJVal, hw]
            simp [List.cons_append, List.append_assoc]
          rw [hs, parseJVal, skipWs_cons _ _ (by decide)]
          split
          · next r heq => injection heq with h1 _; exact absurd h1 (by decide)
          · next r heq => injection heq with h1 _; exact absurd h1 (by decide)
          · next r heq => injection heq with h1 _; exact absurd h1 (by decide)
          · next r heq => injection heq with h1 _; exact absurd h1 (by decide)
          · next r heq => injection heq with h1 _; exact absurd h1 (by decide)
          · next r heq =>
              injection heq with h1 h2
              subst h2
              rw [skipWs_cons _ _ (by decide)]
              split
              · next r2 heq2 => injection heq2 with h1 _; exact absurd h1 (by decide)
              · rw [show '"' :: (w ++ '}' :: rest) =
                    stringifyMembers ((k, v) :: ms') ++ '}' :: rest by
                  rw [hw]
                  simp]
                rw [ihm ((k, v) :: ms') (by simp) hmwf hlen' rest]
                show some (JVal.jobj (jsObjOfMembers ((k, v) :: ms')), rest) =
                  some (JVal.jobj ((k, v) :: ms'), rest)
                rw [jsObjOfMembers_nodup _ hnd']
          · next h1 h2 h3 h4 h5 h6 h7 => exact absurd (h7 _ rfl) not_false
    · intro xs hne hlwf hlen rest
      cases xs with
      | nil => exact absurd rfl hne
      | cons x xs' =>
        obtain ⟨u, hu, hucase⟩ := stringifyElems_cons_ex x xs'
        rw [jvalListWF, Bool.and_eq_true] at hlwf
        obtain ⟨hwx, hwxs⟩ := hlwf
        rcases hucase with ⟨rfl, rfl⟩ | ⟨hne', rfl⟩
        · have hsx : stringifyElems [x] = stringifyJVal x := by
            rw [hu, List.append_nil]
          have hlenx : (stringifyJVal x).length ≤ fuel := by
            rw [hsx] at hlen
            omega
          rw [hsx, parseElems, ihv x hwx hlenx (']' :: rest) rfl]
          rfl
        · have hlenx : (stringifyJVal x).length ≤ fuel := by
            rw [hu] at hlen
            simp [List.length_append] at hlen
            omega
          have hlens : (stringifyElems xs').length + 1 ≤ fuel := by
            rw [hu] at hlen
            simp [List.length_append] at hlen
            omega
          have hs : stringifyElems (x :: xs') ++ ']' :: rest =
              stringifyJVal x ++ (',' :: (stringifyElems xs' ++ ']' :: rest)) := by
            rw [hu]
            simp [List.cons_append, List.append_assoc]
          rw [hs, parseElems,
            ihv x hwx hlenx (',' :: (stringifyElems xs' ++ ']' :: rest)) rfl]
          simp only [Option.bind_eq_bind, Option.some_bind]
          rw [skipWs_cons _ _ (by decide)]
          split
          · next r2 heq2 =>
              injection heq2 with h1 h2
              subst h2
              rw [ihe xs' hne' hwxs hlens rest]
              rfl
          · next r2 heq2 => injection heq2 with h1 _; exact absurd h1 (by decide)
          · next h1 h2 h3 => exact absurd (h2 _ rfl) not_false
    · intro ms hne hmwf hlen rest
      cases ms with
      | nil => exact absurd rfl hne
      | cons p ms' =>
        obtain ⟨k, v⟩ := p
        obtain ⟨u, hu, hucase⟩ := stringifyMembers_cons_ex k v ms'
        rw [jvalMembersWF, Bool.and_eq_true] at hmwf
        obtain ⟨hwv, hwms⟩ := hmwf
        rcases hucase with ⟨rfl, rfl⟩ | ⟨hne', rfl⟩
        · have hlenv : (stringifyJVal v).length ≤ fuel := by
            rw [hu] at hlen
            simp [List.length_append] at hlen
            omega
          have hs : stringifyMembers [(k, v)] ++ '}' :: rest =
              '"' :: (k.toList.flatMap jstrEscapeChar ++ '"' ::
                (':' :: (stringifyJVal v ++ '}' :: rest))) := by
            rw [hu]
            simp [stringifyJStr, List.cons_append, List.append_assoc]
          rw [hs, parseMembers]
          split
          · next r1 heq =>
              injection heq with h1 h2
              subst h2
              rw [parseJStrAux_escape]
              simp only [Option.bind_eq_bind, Option.some_bind]
              rw [skipWs_cons _ _ (by decide)]
              split
              · next r3 heq3 =>
                  injection heq3 with h1 h2
                  subst h2
                  rw [ihv v hwv hlenv ('}' :: rest) rfl]
                  rfl
              · next h1 h2 => exact absurd (h2 _ rfl) not_false
          · next h1 h2 => exact absurd (h2 _ rfl) not_false
        · have hlenv : (stringifyJVal v).length ≤ fuel := by
            rw [hu] at hlen
            simp [List.length_append] at hlen
            omega
          have hlens : (stringifyMembers ms').length + 1 ≤ fuel := by
            rw [hu] at hlen
            simp [List.length_append] at hlen
            omega
          have hs : stringifyMembers ((k, v) :: ms') ++ '}' :: rest =
              '"' :: (k.toList.flatMap jstrEscapeChar ++ '"' ::
                (':' :: (stringifyJVal v ++
                  (',' :: (stringifyMembers ms' ++ '}' :: rest))))) := by
            rw [hu]
            simp [stringifyJStr, List.cons_append, List.append_assoc]
          rw [hs, parseMembers]
          split
          · next r1 heq =>
              injection heq with h1 h2
              subst h2
              rw [parseJStrAux_escape]
              simp only [Option.bind_eq_bind, Option.some_bind]
              rw [skipWs_cons _ _ (by decide)]
              split
              · next r3 heq3 =>
                  injection heq3 with h1 h2
                  subst h2
                  rw [ihv v hwv hlenv
                    (',' :: (stringifyMembers ms' ++ '}' :: rest)) rfl]
                  simp only [Option.bind_eq_bind, Option.some_bind]
                  rw [skipWs_cons _ _ (by decide)]
                  split
                  · next r5 heq5 =>
                      injection heq5 with h1 h2
                      subst h2
                      rw [ihm ms' hne' hwms hlens rest]
                      rfl
                  · next r5 heq5 =>
                      injection heq5 with h1 _
                      exact absurd h1 (by decide)
                  · next h1 h2 h3 => exact absurd (h2 _ rfl) not_false
              · next h1 h2 => exact absurd (h2 _ rfl) not_false
          · next h1 h2 => exact absurd (h2 _ rfl) not_false

/-- `JSON.parse` inverts `JSON.stringify` on well-formed runtime values. -/
theorem jsonParse_stringify (j : JVal) (h : jvalWF j = true) :
    jsonParse (stringifyJVal j) = some j := by
  rw [jsonParse]
  have hp := (parse_stringify_all ((stringifyJVal j).length + 1)).1 j h
    (by omega) [] rfl
  rw [List.append_nil] at hp
  rw [hp]
  rfl

/-- Member well-formedness spelled out elementwise. -/
theorem jvalMembersWF_mem (ms : List (String × JVal))
    (h : jvalMembersWF ms = true) :
    ∀ p ∈ ms, jvalWF p.2 = true := by
  induction ms with
  | nil => intro p hp; simp at hp
  | cons q t ih =>
    obtain ⟨k, v⟩ := q
    rw [jvalMembersWF, Bool.and_eq_true] at h
    intro p hp
    rcases List.mem_cons.mp hp with rfl | hp
    · exact h.1
    · exact ih h.2 p hp

/-- A property read on an object with well-formed members returns a
well-formed value. -/
theorem jGet_wf (ms : List (String × JVal)) (h : jvalMembersWF ms = true)
    (k : String) (v : JVal) (hg : jGet ms k = some v) : jvalWF v = true := by
  rw [jGet] at hg
  rcases hfind : ms.find? fun p => p.1 = k with _ | p
  · rw [hfind] at hg
    simp at hg
  · rw [hfind] at hg
    simp only [Option.map_some'] at hg
    have hmem := List.mem_of_find?_eq_some hfind
    have hwp := jvalMembersWF_mem ms h p hmem
    injection hg with hg2
    rw [← hg2]
    exact hwp

/-- `jsOr` of a well-formed optional value and a well-formed default is
well-formed. -/
theorem jsOr_wf (o : Option JVal) (d : JVal)
    (ho : ∀ v, o = some v → jvalWF v = true) (hd : jvalWF d = true) :
    jvalWF (jsOr o d) = true := by
  cases o with
  | none => exact hd
  | some x =>
    rw [jsOr]
    split_ifs with h
    · exact ho x rfl
    · exact hd

/-- Property assignment does not change the key list of an object. -/
theorem jsObjSet_keys (o : List (String × JVal)) (k : String) (v : JVal) :
    (jsObjSet o k v).map Prod.fst =
      if o.any (fun p => p.1 = k) then o.map Prod.fst
      else o.map Prod.fst ++ [k] := by
  rw [jsObjSet]
  split_ifs with h
  · rw [List.map_map]
    refine List.map_congr_left fun p hp => ?_
    by_cases hpk : p.1 = k
    · simp [hpk]
    · simp [hpk]
  · simp

/-- Property assignment preserves key distinctness. -/
theorem jsObjSet_keys_nodup (o : List (String × JVal)) (k : String) (v : JVal)
    (h : (o.map Prod.fst).Nodup) : ((jsObjSet o k v).map Prod.fst).Nodup := by
  rw [jsObjSet_keys]
  split_ifs with hany
  · exact h
  · rw [List.nodup_append]
    refine ⟨h, List.nodup_singleton k, ?_⟩
    intro a ha hb
    rcases List.mem_singleton.mp hb with rfl
    rcases List.mem_map.mp ha with ⟨p, hp, rfl⟩
    simp only [List.any_eq_true, decide_eq_true_eq] at hany
    exact hany ⟨p, hp, rfl⟩


/-- Member well-formedness as an `all` over the member values. -/
theorem jvalMembersWF_eq_all (ms : List (String × JVal)) :
    jvalMembersWF ms = ms.all fun p => jvalWF p.2 := by
  induction ms with
  | nil => rw [jvalMembersWF]; rfl
  | cons p t ih =>
    obtain ⟨k, v⟩ := p
    rw [jvalMembersWF, ih, List.all_cons]

/-- Property assignment with a well-formed value preserves member
well-formedness. -/
theorem jsObjSet_membersWF (o : List (String × JVal)) (k : String) (v : JVal)
    (ho : jvalMembersWF o = true) (hv : jvalWF v = true) :
    jvalMembersWF (jsObjSet o k v) = true := by
  rw [jvalMembersWF_eq_all] at ho ⊢
  rw [jsObjSet]
  simp only [List.all_eq_true] at ho ⊢
  split_ifs with h
  · intro p hp
    rcases List.mem_map.mp hp with ⟨q, hq, rfl⟩
    by_cases hqk : q.1 = k
    · rw [if_pos hqk]
      exact hv
    · rw [if_neg hqk]
      exact ho q hq
  · intro p hp
    rcases List.mem_append.mp hp with hp | hp
    · exact ho p hp
    · rcases List.mem_singleton.mp hp with rfl
      exact hv

/-- Reading back the property just assigned. -/
theorem jGet_jsObjSet_self (o : List (String × JVal)) (k : String) (v : JVal) :
    jGet (jsObjSet o k v) k = some v := by
  rw [jsObjSet]
  split_ifs with h
  · induction o with
    | nil => simp at h
    | cons q t ih =>
      by_cases hqk : q.1 = k
      · rw [List.map_cons, if_pos hqk, jGet, List.find?_cons_of_pos _ (by simp)]
        rfl
      · rw [List.map_cons, if_neg hqk]
        have ht : t.any (fun p => p.1 = k) = true := by
          simpa [List.any_cons, hqk] using h
        have := ih ht
        rw [jGet, List.find?_cons_of_neg _ (by simpa using hqk)]
        rw [jGet] at this
        exact this
  · induction o with
    | nil => rw [jGet, List.nil_append, List.find?_cons_of_pos _ (by simp)]; rfl
    | cons q t ih =>
      have hqk : ¬ q.1 = k := by
        simp only [List.any_cons, Bool.or_eq_true, decide_eq_true_eq] at h
        tauto
      have ht : ¬ t.any (fun p => p.1 = k) = true := by
        simp only [List.any_cons, Bool.or_eq_true] at h
        tauto
      rw [List.cons_append, jGet, List.find?_cons_of_neg _ (by simpa using hqk)]
      have := ih ht
      rw [jGet] at this
      exact this

/-- Leaf JSON values are always well-formed. -/
theorem jvalWF_str (s : String) : jvalWF (.jstr s) = true := by
  rw [jvalWF]
  · intro xs h
    exact JVal.noConfusion h
  · intro ms h
    exact JVal.noConfusion h

/-- Numeric JSON values are always well-formed. -/
theorem jvalWF_num (n : JNum) : jvalWF (.jnum n) = true := by
  rw [jvalWF]
  · intro xs h
    exact JVal.noConfusion h
  · intro ms h
    exact JVal.noConfusion h

/-- The nested voice-characteristics bag of a well-formed avatar object
has well-formed member values. -/
theorem vcFieldsOf_wf (avatar : List (String × JVal))
    (h : jvalWF (.jobj avatar) = true) :
    jvalMembersWF (vcFieldsOf avatar) = true := by
  rw [jvalWF, Bool.and_eq_true] at h
  rw [vcFieldsOf]
  split
  · next o hg =>
      have hwo := jGet_wf avatar h.2 "voice_characteristics" (.jobj o) hg
      rw [jvalWF, Bool.and_eq_true] at hwo
      exact hwo.2
  · rw [jvalMembersWF]

/-- The normalized five-field voice object of `openPreviewWithConfig` is
well-formed whenever the avatar object is. -/
theorem vcObject_wf (avatar : List (String × JVal))
    (h : jvalWF (.jobj avatar) = true) :
    jvalWF (.jobj
      [("tone", jsOr (jGet (vcFieldsOf avatar) "tone") (.jstr "warm_friendly")),
       ("accent", jsOr (jGet (vcFieldsOf avatar) "accent") (.jstr "neutral_american")),
       ("speed", jsOr (jGet (vcFieldsOf avatar) "speed") (.jnum ⟨1, 0⟩)),
       ("gender", previewGender avatar),
       ("pitch", jsOr (jGet (vcFieldsOf avatar) "pitch") (.jnum ⟨0, 0⟩))]) = true := by
  have hvc := vcFieldsOf_wf avatar h
  have hmw : jvalMembersWF avatar = true := by
    rw [jvalWF, Bool.and_eq_true] at h
    exact h.2
  rw [jvalWF, Bool.and_eq_true]
  constructor
  · simp only [List.map_cons, List.map_nil]
    rfl
  · rw [jvalMembersWF_eq_all]
    simp only [List.all_cons, List.all_nil, Bool.and_eq_true]
    refine ⟨?_, ?_, ?_, ?_, ?_, trivial⟩
    · exact jsOr_wf _ _ (fun v hv => jGet_wf _ hvc "tone" v hv) (jvalWF_str _)
    · exact jsOr_wf _ _ (fun v hv => jGet_wf _ hvc "accent" v hv) (jvalWF_str _)
    · exact jsOr_wf _ _ (fun v hv => jGet_wf _ hvc "speed" v hv) (jvalWF_num _)
    · exact jsOr_wf _ _ (fun v hv => jGet_wf _ hvc "gender" v hv)
        (jsOr_wf _ _ (fun v hv => jGet_wf _ hmw "gender" v hv) (jvalWF_str _))
    · exact jsOr_wf _ _ (fun v hv => jGet_wf _ hvc "pitch" v hv) (jvalWF_num _)

/-- The `completeAvatar` object built by the preview path is well-formed
whenever the avatar object is. -/
theorem completeAvatar_wf (avatar : List (String × JVal))
    (h : jvalWF (.jobj avatar) = true) :
    jvalWF (.jobj (completeAvatarOf avatar)) = true := by
  have hvco := vcObject_wf avatar h
  rw [jvalWF, Bool.and_eq_true] at h
  obtain ⟨hnd, hmw⟩ := h
  rw [completeAvatarOf, jvalWF, Bool.and_eq_true]
  exact ⟨decide_eq_true (jsObjSet_keys_nodup _ _ _ (of_decide_eq_true hnd)),
    jsObjSet_membersWF _ _ _ hmw hvco⟩

/-- UTF-8 code units of a JavaScript string are bytes. -/
theorem utf8Encode_lt_256 (s : List Char) : ∀ b ∈ utf8Encode s, b < 256 := by
  intro b hb
  rcases List.mem_flatMap.mp hb with ⟨c, -, hc⟩
  exact utf8EncodeNat_lt_256 c.toNat (char_toNat_lt c) b
    (by simpa [utf8EncodeChar] using hc)

/-- `btoa(unescape(encodeURIComponent(s)))` always succeeds and produces
the base64 rendering of the UTF-8 bytes of `s`. -/
theorem btoaFn_utf8 (s : List Char) :
    btoaFn (unescapeFn (encodeURIComponentFn s)) =
      some (btoaBytes (utf8Encode s)) := by
  rw [unescapeFn_encodeURIComponent, btoaFn, if_pos]
  · have hmm : (List.map Char.ofNat (utf8Encode s)).map Char.toNat =
        utf8Encode s := by
      rw [List.map_map]
      have hcg : List.map (Char.toNat ∘ Char.ofNat) (utf8Encode s) =
          List.map id (utf8Encode s) :=
        List.map_congr_left fun b hb => by
          simp only [Function.comp_apply, id_eq]
          exact toNat_charOfNat_latin1 b (utf8Encode_lt_256 s b hb)
      rw [hcg, List.map_id]
    rw [hmm]
  · rw [List.all_eq_true]
    intro c hc
    rcases List.mem_map.mp hc with ⟨b, hb, rfl⟩
    simp only [decide_eq_true_eq]
    rw [toNat_charOfNat_latin1 b (utf8Encode_lt_256 s b hb)]
    exact utf8Encode_lt_256 s b hb

/-- Every character of a base64 rendering is plain ASCII and not a
percent sign. -/
theorem btoaBytes_ascii (bs : List Nat) (hb : ∀ b ∈ bs, b < 256) :
    ∀ c ∈ btoaBytes bs, c.toNat < 128 ∧ c ≠ '%' := by
  intro c hc
  rcases btoaBytes_chars bs hb c hc with hmem | rfl
  · exact b64Alphabet_ascii c hmem
  · exact ⟨by decide, by decide⟩

/-- The widget's `decodeConfigFromURL` inverts the gallery's encoding of a
well-formed JSON value. -/
theorem decodeConfigFromURL_encoded (j : JVal) (hwf : jvalWF j = true) :
    decodeConfigFromURL (encodeURIComponentFn (btoaBytes
      (utf8Encode (stringifyJVal j)))) = some j := by
  rw [decodeConfigFromURL, urlParamDecode_encodeURIComponent]
  simp only [Option.bind_eq_bind, Option.some_bind]
  rw [decodeURIComponent_ascii _
    (btoaBytes_ascii _ (utf8Encode_lt_256 (stringifyJVal j)))]
  simp only [Option.some_bind]
  rw [atob_btoaBytes _ (utf8Encode_lt_256 (stringifyJVal j))]
  simp only [Option.some_bind]
  rw [decodeURIComponent_escapeFn_utf8]
  simp only [Option.some_bind]
  exact jsonParse_stringify j hwf

/-- The value `openPreviewWithConfig` places after `?config=`: the
encoder never throws and emits the URL-encoded base64 of the UTF-8 bytes
of the stringified `completeAvatar`. -/
theorem openPreviewConfigValue_eq (avatar : List (String × JVal)) :
    openPreviewConfigValue avatar = some (encodeURIComponentFn (btoaBytes
      (utf8Encode (stringifyJVal (.jobj (completeAvatarOf avatar)))))) := by
  rw [openPreviewConfigValue, btoaFn_utf8]
  rfl

/-- Under the data model's gender constraint (enum strings only, hence
truthy), the `||` chain of `openPreviewWithConfig` implements plain
presence fallback: nested gender, else top-level gender, else female. -/
theorem previewGender_fallback (avatar : List (String × JVal))
    (h1 : genderFieldOk (jGet (vcFieldsOf avatar) "gender") = true)
    (h2 : genderFieldOk (jGet avatar "gender") = true) :
    previewGender avatar =
      (match jGet (vcFieldsOf avatar) "gender" with
       | some g => g
       | none =>
         match jGet avatar "gender" with
         | some g => g
         | none => .jstr "female") := by
  rw [previewGender]
  cases hg : jGet (vcFieldsOf avatar) "gender" with
  | none =>
    cases hg2 : jGet avatar "gender" with
    | none => rfl
    | some g =>
      rw [hg2] at h2
      cases g with
      | jstr s =>
        have hs : ¬ s = "" := by
          rw [genderFieldOk] at h2
          simp only [Bool.or_eq_true, decide_eq_true_eq] at h2
          rcases h2 with (rfl | rfl) | rfl <;> decide
        show jsOr none (jsOr (some (.jstr s)) (.jstr "female")) = .jstr s
        rw [jsOr, jsOr, if_pos (by simpa [jTruthy] using hs)]
      | jnull =>
      rw [genderFieldOk] at h2
      · exact absurd h2 (by simp)
      · intro s hEq
        exact JVal.noConfusion hEq
      | jbool b =>
      rw [genderFieldOk] at h2
      · exact absurd h2 (by simp)
      · intro s hEq
        exact JVal.noConfusion hEq
      | jnum n =>
      rw [genderFieldOk] at h2
      · exact absurd h2 (by simp)
      · intro s hEq
        exact JVal.noConfusion hEq
      | jarr xs =>
      rw [genderFieldOk] at h2
      · exact absurd h2 (by simp)
      · intro s hEq
        exact JVal.noConfusion hEq
      | jobj ms =>
      rw [genderFieldOk] at h2
      · exact absurd h2 (by simp)
      · intro s hEq
        exact JVal.noConfusion hEq
  | some g =>
    rw [hg] at h1
    cases g with
    | jstr s =>
      have hs : ¬ s = "" := by
        rw [genderFieldOk] at h1
        simp only [Bool.or_eq_true, decide_eq_true_eq] at h1
        rcases h1 with (rfl | rfl) | rfl <;> decide
      show jsOr (some (.jstr s)) (jsOr (jGet avatar "gender") (.jstr "female")) =
        .jstr s
      rw [jsOr, if_pos (by simpa [jTruthy] using hs)]
    | jnull =>
      rw [genderFieldOk] at h1
      · exact absurd h1 (by simp)
      · intro s hEq
        exact JVal.noConfusion hEq
    | jbool b =>
      rw [genderFieldOk] at h1
      · exact absurd h1 (by simp)
      · intro s hEq
        exact JVal.noConfusion hEq
    | jnum n =>
      rw [genderFieldOk] at h1
      · exact absurd h1 (by simp)
      · intro s hEq
        exact JVal.noConfusion hEq
    | jarr xs =>
      rw [genderFieldOk] at h1
      · exact absurd h1 (by simp)
      · intro s hEq
        exact JVal.noConfusion hEq
    | jobj ms =>
      rw [genderFieldOk] at h1
      · exact absurd h1 (by simp)
      · intro s hEq
        exact JVal.noConfusion hEq

/-- C1: for every Avatar object (well-formed runtime object whose gender
fields, where present, hold a gender enum string), encoding through the
gallery's by-value preview path (`openPreviewWithConfig`) and decoding in
the config-aware widget client (`decodeConfigFromURL`) succeeds and yields
the `completeAvatar` object, whose `voice_characteristics` has all five
fields `tone`, `accent`, `speed`, `gender`, `pitch` present, and whose
`gender` equals the source's nested `voice_characteristics.gender` when
present, else the source's top-level `gender` when present, else
`"female"`. -/
theorem config_preview_roundtrip (avatar : List (String × JVal))
    (h : avatarWF avatar = true) :
    ∃ cfg vc, openPreviewConfigValue avatar = some cfg ∧
      decodeConfigFromURL cfg = some (.jobj (completeAvatarOf avatar)) ∧
      jGet (completeAvatarOf avatar) "voice_characteristics" =
        some (.jobj vc) ∧
      (jGet vc "tone").isSome = true ∧
      (jGet vc "accent").isSome = true ∧
      (jGet vc "speed").isSome = true ∧
      (jGet vc "pitch").isSome = true ∧
      jGet vc "gender" = some
        (match jGet (vcFieldsOf avatar) "gender" with
         | some g => g
         | none =>
           match jGet avatar "gender" with
           | some g => g
           | none => .jstr "female") := by
  rw [avatarWF, Bool.and_eq_true, Bool.and_eq_true] at h
  obtain ⟨⟨hobj, hg1⟩, hg2⟩ := h
  refine ⟨_,
    [("tone", jsOr (jGet (vcFieldsOf avatar) "tone") (.jstr "warm_friendly")),
     ("accent", jsOr (jGet (vcFieldsOf avatar) "accent") (.jstr "neutral_american")),
     ("speed", jsOr (jGet (vcFieldsOf avatar) "speed") (.jnum ⟨1, 0⟩)),
     ("gender", previewGender avatar),
     ("pitch", jsOr (jGet (vcFieldsOf avatar) "pitch") (.jnum ⟨0, 0⟩))],
    openPreviewConfigValue_eq avatar,
    decodeConfigFromURL_encoded _ (completeAvatar_wf avatar hobj),
    ?_, ?_, ?_, ?_, ?_, ?_⟩
  · rw [completeAvatarOf]
    exact jGet_jsObjSet_self _ _ _
  · rfl
  · rfl
  · rfl
  · rfl
  · rw [← previewGender_fallback avatar hg1 hg2]
    rfl

/-- Witness for C1 at a concrete avatar carrying a top-level gender and a
partial nested voice object. -/
theorem config_preview_roundtrip_witness :
    avatarWF [("name", .jstr "Ava"), ("gender", .jstr "male"),
      ("voice_characteristics", .jobj [("tone", .jstr "calm")])] = true ∧
    (∃ cfg vc, openPreviewConfigValue [("name", .jstr "Ava"),
        ("gender", .jstr "male"),
        ("voice_characteristics", .jobj [("tone", .jstr "calm")])] =
          some cfg ∧
      decodeConfigFromURL cfg = some (.jobj (completeAvatarOf
        [("name", .jstr "Ava"), ("gender", .jstr "male"),
         ("voice_characteristics", .jobj [("tone", .jstr "calm")])])) ∧
      jGet (completeAvatarOf [("name", .jstr "Ava"), ("gender", .jstr "male"),
          ("voice_characteristics", .jobj [("tone", .jstr "calm")])])
          "voice_characteristics" = some (.jobj vc) ∧
      (jGet vc "tone").isSome = true ∧
      (jGet vc "accent").isSome = true ∧
      (jGet vc "speed").isSome = true ∧
      (jGet vc "pitch").isSome = true ∧
      jGet vc "gender" = some
        (match jGet (vcFieldsOf [("name", .jstr "Ava"),
            ("gender", .jstr "male"),
            ("voice_characteristics", .jobj [("tone", .jstr "calm")])])
            "gender" with
         | some g => g
         | none =>
           match jGet [("name", .jstr "Ava"), ("gender", .jstr "male"),
               ("voice_characteristics", .jobj [("tone", .jstr "calm")])]
               "gender" with
           | some g => g
           | none => .jstr "female")) :=
  ⟨by simp [avatarWF, jvalWF, jvalMembersWF, vcFieldsOf, jGet, genderFieldOk],
   config_preview_roundtrip _
     (by simp [avatarWF, jvalWF, jvalMembersWF, vcFieldsOf, jGet, genderFieldOk])⟩
